import Mathlib

/-!
Verification of the MODE II data-ingestion / validation / orchestration core.

Strings are embedded as `List Char`; Python / database floating-point values
are embedded as exact rationals (`ℚ`); fallible operations return `Option`
or `Except`.  Each definition mirrors one function of the source, keeping
its name where Lean allows it.
-/

namespace Mode2

/-- Characters of a string literal, to write concrete character lists. -/
def cs (s : String) : List Char := s.toList

/-- ASCII decimal digit test. -/
def isAsciiDigit (c : Char) : Bool := '0' ≤ c && c ≤ '9'

/-- The whitespace set of Python `str.strip()`, restricted to the ASCII
whitespace characters (the only ones occurring in the modelled data). -/
def isPySpace (c : Char) : Bool :=
  c = ' ' || c = '\t' || c = '\n' || c = '\r' || c = '\x0b' || c = '\x0c'

/-- Python `s.strip()`: drop leading and trailing whitespace. -/
def trim (s : List Char) : List Char :=
  ((s.dropWhile isPySpace).reverse.dropWhile isPySpace).reverse

/-- Python `s.split(sep)` for a one-character separator: `''.split(c) = ['']`,
and every occurrence of `c` separates two (possibly empty) fields. -/
def splitOnChar (c : Char) : List Char → List (List Char)
  | [] => [[]]
  | a :: rest =>
    if a = c then [] :: splitOnChar c rest
    else
      match splitOnChar c rest with
      | [] => [[a]]
      | p :: ps => (a :: p) :: ps

/-- Python `s.replace(old, new)` for one-character arguments. -/
def replaceChar (old new : Char) (s : List Char) : List Char :=
  s.map (fun c => if c = old then new else c)

/-- Split at the first character satisfying `p`: `none` when no character
does, otherwise the part before it and the part after it. -/
def splitFirst (p : Char → Bool) : List Char → Option (List Char × List Char)
  | [] => none
  | c :: rest =>
    if p c then some ([], rest)
    else (splitFirst p rest).map (fun q => (c :: q.1, q.2))

/-- Numeric value of a list of ASCII digits (most significant first). -/
def digitsToNat (s : List Char) : Nat :=
  s.foldl (fun a c => a * 10 + (c.toNat - '0'.toNat)) 0

/-- Nonempty, all-ASCII-digit string. -/
def allDigits (s : List Char) : Bool := !s.isEmpty && s.all isAsciiDigit

/-- Split an optional leading `'+'`/`'-'`; the Boolean is true for `'-'`. -/
def signSplit : List Char → Bool × List Char
  | [] => (false, [])
  | c :: r =>
    if c = '+' then (false, r)
    else if c = '-' then (true, r)
    else (false, c :: r)

/-- Models Python `int(s)` in base 10: surrounding whitespace, an optional
sign, then decimal digits.  (PEP 515 underscore separators and non-ASCII
digits, also accepted by Python, never occur in the inputs characterised
by the claims and are omitted from the model.) -/
def pyInt (s : List Char) : Option Int :=
  let sg := signSplit (trim s)
  if allDigits sg.2 then
    some ((if sg.1 then -1 else 1) * (digitsToNat sg.2 : Int))
  else none

/-- Exponent character of a float literal. -/
def isExpChar (c : Char) : Bool := c = 'e' || c = 'E'

/-- Mantissa of a Python float literal: digits, optionally split by one dot,
with at least one digit overall. -/
def mantissaVal (s : List Char) : Option ℚ :=
  match splitOnChar '.' s with
  | [a] => if allDigits a then some (digitsToNat a : ℚ) else none
  | [a, b] =>
    if (allDigits a || a.isEmpty) && (allDigits b || b.isEmpty)
        && !(a.isEmpty && b.isEmpty) then
      some ((digitsToNat a : ℚ) + (digitsToNat b : ℚ) / (10 : ℚ) ^ b.length)
    else none
  | _ => none

/-- Exponent of a float literal: optional sign then digits. -/
def expVal (s : List Char) : Option Int :=
  let sg := signSplit s
  if allDigits sg.2 then
    some ((if sg.1 then -1 else 1) * (digitsToNat sg.2 : Int))
  else none

/-- Models Python `float(s)` on decimal notation: surrounding whitespace,
optional sign, digits with an optional dot, optional exponent; the value is
taken exactly in `ℚ` (the model idealises IEEE rounding away).  The special
forms `inf`/`nan` and PEP 515 underscores are outside the rational model
and outside every input space characterised by the claims. -/
def pyFloat (s : List Char) : Option ℚ :=
  let sg := signSplit (trim s)
  let sign : ℚ := if sg.1 then -1 else 1
  match splitFirst isExpChar sg.2 with
  | none => (mantissaVal sg.2).map (fun m => sign * m)
  | some me =>
    match mantissaVal me.1, expVal me.2 with
    | some m, some e => some (sign * m * (10 : ℚ) ^ e)
    | _, _ => none

/-- `parse_european_float` of `validators.py`: replace the comma by a dot,
then parse as a float. -/
def parse_european_float (s : List Char) : Option ℚ :=
  pyFloat (replaceChar ',' '.' s)

/-- One parsed data row, `{'index': ..., 'value': ...}`. -/
structure Row where
  index : Int
  value : ℚ
  deriving DecidableEq

/-- The bilingual error messages of `validators.py`, one constructor per
message site; each constructor carries exactly the data interpolated into
the Italian/English f-string pair at that site. -/
inductive VError
  /-- "Unable to decode file. Use UTF-8 or Latin-1 encoding." -/
  | decodeFailed
  /-- "File must contain exactly 12 rows. Found: {found}" -/
  | wrongRowCount (found : Nat)
  /-- "Row {row}: invalid format. Expected 2 tab-separated fields, found {found}" -/
  | invalidFormat (row : Nat) (found : Nat)
  /-- "Row {row}: non-sequential index. Expected {expected}, found {found}" -/
  | nonSequentialIndex (row : Nat) (expected : Nat) (found : Int)
  /-- "Row {row}: invalid index '{text}'. Must be an integer." -/
  | invalidIndex (row : Nat) (text : List Char)
  /-- "Row {row}: invalid numeric value '{text}'" -/
  | invalidValue (row : Nat) (text : List Char)
  deriving DecidableEq

/-- `ValidationResult` of `validators.py`. -/
structure ValidationResult where
  valid : Bool
  errors : List VError
  warnings : List VError
  data : Option (List Row)
  deriving DecidableEq

/-- `ValidationResult.__init__`. -/
def ValidationResult.init : ValidationResult :=
  { valid := true, errors := [], warnings := [], data := none }

/-- `ValidationResult.add_error`: invalidates the result and appends. -/
def ValidationResult.add_error (r : ValidationResult) (e : VError) : ValidationResult :=
  { r with valid := false, errors := r.errors ++ [e] }

/-- `ValidationResult.add_warning`: appends without invalidating. -/
def ValidationResult.add_warning (r : ValidationResult) (w : VError) : ValidationResult :=
  { r with warnings := r.warnings ++ [w] }

/-- The body of the per-row loop of `validate_data_file` at 0-based row
position `i`: split on tab, validate the index field, then parse the value
field; `continue` is the early return of the pair. -/
def processRow (i : Nat) (line : List Char) (res : ValidationResult)
    (parsed : List Row) : ValidationResult × List Row :=
  match splitOnChar '\t' line with
  | [p0, p1] =>
    match pyInt (trim p0) with
    | some index =>
      let res := if index ≠ (i : Int) then
        res.add_error (.nonSequentialIndex (i + 1) i index) else res
      match parse_european_float (trim p1) with
      | some value => (res, parsed ++ [⟨index, value⟩])
      | none => (res.add_error (.invalidValue (i + 1) (trim p1)), parsed)
    | none => (res.add_error (.invalidIndex (i + 1) (trim p0)), parsed)
  | parts => (res.add_error (.invalidFormat (i + 1) parts.length), parsed)

/-- The `for i, line in enumerate(lines)` loop of `validate_data_file`,
starting at row position `start`. -/
def processRows (start : Nat) (lines : List (List Char))
    (res : ValidationResult) (parsed : List Row) : ValidationResult × List Row :=
  match lines with
  | [] => (res, parsed)
  | l :: ls =>
    let rp := processRow start l res parsed
    processRows (start + 1) ls rp.1 rp.2

/-- Line extraction of `validate_data_file`: strip the content, split on
newlines, strip each line and drop blank lines. -/
def extractLines (content : List Char) : List (List Char) :=
  ((splitOnChar '\n' (trim content)).map trim).filter (fun l => !l.isEmpty)

/-- The `file_content.startswith('﻿')` strip of one leading
byte-order mark. -/
def stripBOM (content : List Char) : List Char :=
  if content.head? = some (Char.ofNat 0xFEFF) then content.tail else content

/-- The row-count check, per-row loop and final `data` assignment of
`validate_data_file`, on the extracted lines. -/
def validateLines (lines : List (List Char)) : ValidationResult :=
  let res :=
    if lines.length ≠ 12 then
      ValidationResult.init.add_error (.wrongRowCount lines.length)
    else ValidationResult.init
  let rp := processRows 0 lines res []
  if rp.1.valid then { rp.1 with data := some rp.2 } else rp.1

/-- `validate_data_file` after decoding: BOM strip, line extraction, line
validation. -/
def validateContent (content : List Char) : ValidationResult :=
  validateLines (extractLines (stripBOM content))

/-- A decoded byte of the uploaded file. -/
abbrev Byte := Fin 256

/-- Models `bytes.decode('utf-8')`: RFC 3629 UTF-8 decoding, rejecting
truncated sequences, stray continuation bytes, overlong forms, surrogates
and codepoints above U+10FFFF. -/
def utf8Decode : List Byte → Option (List Char)
  | [] => some []
  | b :: rest =>
    if b.val < 0x80 then
      (utf8Decode rest).map (Char.ofNat b.val :: ·)
    else if b.val < 0xC2 then none
    else if b.val ≤ 0xDF then
      match rest with
      | c1 :: rest2 =>
        if 0x80 ≤ c1.val && c1.val ≤ 0xBF then
          (utf8Decode rest2).map
            (Char.ofNat ((b.val - 0xC0) * 0x40 + (c1.val - 0x80)) :: ·)
        else none
      | [] => none
    else if b.val ≤ 0xEF then
      match rest with
      | c1 :: c2 :: rest3 =>
        let lo1 := if b.val = 0xE0 then 0xA0 else 0x80
        let hi1 := if b.val = 0xED then 0x9F else 0xBF
        if lo1 ≤ c1.val && c1.val ≤ hi1 && 0x80 ≤ c2.val && c2.val ≤ 0xBF then
          (utf8Decode rest3).map
            (Char.ofNat ((b.val - 0xE0) * 0x1000 + (c1.val - 0x80) * 0x40
              + (c2.val - 0x80)) :: ·)
        else none
      | _ => none
    else if b.val ≤ 0xF4 then
      match rest with
      | c1 :: c2 :: c3 :: rest4 =>
        let lo1 := if b.val = 0xF0 then 0x90 else 0x80
        let hi1 := if b.val = 0xF4 then 0x8F else 0xBF
        if lo1 ≤ c1.val && c1.val ≤ hi1 && 0x80 ≤ c2.val && c2.val ≤ 0xBF
            && 0x80 ≤ c3.val && c3.val ≤ 0xBF then
          (utf8Decode rest4).map
            (Char.ofNat ((b.val - 0xF0) * 0x40000 + (c1.val - 0x80) * 0x1000
              + (c2.val - 0x80) * 0x40 + (c3.val - 0x80)) :: ·)
        else none
      | _ => none
    else none

/-- Models `bytes.decode('latin-1')`: every byte maps to the codepoint of
the same value, so decoding never fails. -/
def latin1Decode (bs : List Byte) : Option (List Char) :=
  some (bs.map (fun b => Char.ofNat b.val))

/-- The decode cascade of `validate_data_file`: UTF-8, falling back to
Latin-1 on failure. -/
def decodeBytes (bs : List Byte) : Option (List Char) :=
  match utf8Decode bs with
  | some s => some s
  | none => latin1Decode bs

/-- The `str | bytes` argument of `validate_data_file`. -/
inductive FileContent
  | str (s : List Char)
  | bytes (b : List Byte)

/-- `validate_data_file` of `validators.py`. -/
def validate_data_file : FileContent → ValidationResult
  | .str s => validateContent s
  | .bytes b =>
    match decodeBytes b with
    | some s => validateContent s
    | none => ValidationResult.init.add_error .decodeFailed

/-! ## Grid alignment (`function_views.py`) -/

/-- The loop body of `interpolate_to_integer_grid` at one grid point `x`:
clamp to the boundary values outside the data range, otherwise linearly
interpolate between the bracketing samples.  `k` is the exit value of the
`while` loop `while k < len(x_vals) and x_vals[k] <= x: k += 1`; the
out-of-range accesses `getD` guards with `0` cannot occur on the taken
branch. -/
def interpPoint (x_vals y_vals : List ℚ) (x : ℚ) : ℚ :=
  if x ≤ x_vals.getD 0 0 then y_vals.getD 0 0
  else if x_vals.getD (x_vals.length - 1) 0 ≤ x then
    y_vals.getD (y_vals.length - 1) 0
  else
    let k := (x_vals.takeWhile (fun xv => decide (xv ≤ x))).length
    let x0 := x_vals.getD (k - 1) 0
    let y0 := y_vals.getD (k - 1) 0
    let x1 := x_vals.getD k 0
    let y1 := y_vals.getD k 0
    y0 * (x - x1) / (x0 - x1) + y1 * (x - x0) / (x1 - x0)

/-- `interpolate_to_integer_grid` of `function_views.py`: empty data maps
to a zero-filled grid, otherwise every integer grid point is interpolated
by `interpPoint`. -/
def interpolate_to_integer_grid (data : List (Int × ℚ)) (grid_size : Nat) :
    List ℚ :=
  if data.isEmpty then List.replicate grid_size 0
  else
    (List.range grid_size).map (fun i : Nat =>
      interpPoint (data.map (fun p => (p.1 : ℚ))) (data.map (fun p => p.2))
        (i : ℚ))

/-! ## Series store (`importers.py`, `data_retrieval.py`)

The relational backend is embedded as a map from table names to the stored
rows in insertion order; `SELECT ... ORDER BY index ASC` is embedded as a
sort of the stored rows by index. -/

/-- The database: table name to stored rows (in insertion order). -/
abbrev Store := List Char → Option (List Row)

/-- `get_table_name` of `importers.py`: hyphens removed from the dataset
id, the series-type token lowercased with every character other than
(ASCII) alphanumerics and underscore replaced by an underscore. -/
def get_table_name (uuid : List Char) (data_ref_name : List Char) : List Char :=
  let uuid_clean := uuid.filter (fun c => c ≠ '-')
  let safe_ref_name := (data_ref_name.map Char.toLower).map
    (fun c => if c.isAlphanum || c = '_' then c else '_')
  cs "import_" ++ uuid_clean ++ '_' :: safe_ref_name

/-- `table_exists` of `data_retrieval.py`. -/
def table_exists (st : Store) (table_name : List Char) : Bool :=
  (st table_name).isSome

/-- `create_import_table` of `importers.py`: drop the table if it exists
and create it empty. -/
def create_import_table (st : Store) (uuid data_ref_name : List Char) :
    Store × List Char :=
  let table_name := get_table_name uuid data_ref_name
  (fun n => if n = table_name then some [] else st n, table_name)

/-- One `INSERT INTO ... (index, value) VALUES (...)`. -/
def insertRow (st : Store) (table_name : List Char) (r : Row) : Store :=
  fun n => if n = table_name then (st table_name).map (· ++ [r]) else st n

/-- The result dictionary of `import_data`. -/
structure ImportResult where
  table_name : List Char
  rows_imported : Nat
  deriving DecidableEq

/-- `import_data` of `importers.py`: recreate the table, insert the rows
in order, report the table name and the row count. -/
def import_data (st : Store) (uuid data_ref_name : List Char)
    (data : List Row) : Store × ImportResult :=
  let stn := create_import_table st uuid data_ref_name
  let st2 := data.foldl (fun s r => insertRow s stn.2 r) stn.1
  (st2, ⟨stn.2, data.length⟩)

/-- The bilingual messages of the view layer and of `data_retrieval.py`,
one constructor per message site, each carrying the interpolated data. -/
inductive VMsg
  /-- "'dataset_uuid' field is required." -/
  | uuidRequired
  /-- "Invalid dataset UUID." -/
  | uuidInvalid
  /-- "Invalid prevision type. Use 'standard' or 'best_fit_viscosity'." -/
  | invalidPrevisionType
  /-- "'geometry' field is required." -/
  | geometryRequired
  /-- "Missing geometry parameters: {ks}" -/
  | geometryMissing (ks : List (List Char))
  /-- "'geotechnical_params' field is required." -/
  | geotechRequired
  /-- "Missing geotechnical parameters: {ks}" -/
  | geotechMissing (ks : List (List Char))
  /-- "'model_params' field is required." -/
  | modelParamsRequired
  /-- "Missing model parameters: {ks}" -/
  | modelParamsMissing (ks : List (List Char))
  /-- "Dati di {name_it} non trovati..." / "{name_en} data not found..." -/
  | dataMissing (name_it name_en : List Char)
  deriving DecidableEq

/-- The `data_type_names` lookup shared by `get_imported_data` and
`check_required_data`, falling back to the raw type name. -/
def missingMsg (data_type : List Char) : VMsg :=
  if data_type = cs "pioggia" then .dataMissing (cs "pioggia") (cs "rainfall")
  else if data_type = cs "falda" then .dataMissing (cs "falda") (cs "water table")
  else if data_type = cs "spostamento" then
    .dataMissing (cs "spostamento") (cs "displacement")
  else .dataMissing data_type data_type

/-- `get_imported_data` of `data_retrieval.py`: raise `DataNotFoundError`
when the table does not exist, otherwise return the `(index, value)` pairs
ordered by index ascending. -/
def get_imported_data (st : Store) (uuid data_type : List Char) :
    Except VMsg (List (Int × ℚ)) :=
  let table_name := get_table_name uuid data_type
  if table_exists st table_name then
    .ok ((((st table_name).getD []).mergeSort
        (fun a b => decide (a.index ≤ b.index))).map
      (fun r => (r.index, r.value)))
  else .error (missingMsg data_type)

/-- `check_required_data` of `data_retrieval.py`: one error appended per
missing required type. -/
def check_required_data (st : Store) (uuid : List Char)
    (required_types : List (List Char)) : List VMsg :=
  required_types.foldl
    (fun errs t =>
      if table_exists st (get_table_name uuid t) then errs
      else errs ++ [missingMsg t]) []

/-! ## Prevision endpoint (`function_views.py`) -/

/-- ASCII hexadecimal digit. -/
def isHexDigit (c : Char) : Bool :=
  isAsciiDigit c || ('a' ≤ c && c ≤ 'f') || ('A' ≤ c && c ≤ 'F')

/-- Canonical hyphenated UUID shape: five hexadecimal groups of sizes
8-4-4-4-12 separated by hyphens. -/
def isCanonicalUUID (s : List Char) : Bool :=
  match splitOnChar '-' s with
  | [a, b, c, d, e] =>
    a.length = 8 && b.length = 4 && c.length = 4 && d.length = 4
      && e.length = 12 && (a ++ b ++ c ++ d ++ e).all isHexDigit
  | _ => false

/-- Models `uuid.UUID(s)` on the canonical hyphenated form (the only form
this API produces and consumes), returned lowercased as `str(uuid)`
renders it.  (Python also accepts braces, a `urn:` prefix and the
unhyphenated form; those never occur in the modelled exchanges.) -/
def pyUUID (s : List Char) : Option (List Char) :=
  if isCanonicalUUID s then some (s.map Char.toLower) else none

/-- A JSON object of numeric fields, as the views read it. -/
abbrev JsonDict := List (List Char × ℚ)

/-- The fields `PrevisionView.post` reads from `request.data`; `none` is an
absent key. -/
structure PrevRequest where
  dataset_uuid : Option (List Char)
  prevision_type : Option (List Char)
  geometry : Option JsonDict
  geotechnical_params : Option JsonDict
  model_params : Option JsonDict
  analysis_settings : Option JsonDict
  displacement_unit : Option (List Char)
  time_unit : Option (List Char)

/-- A `DotNetError` re-raised from the engine. -/
structure EngError where
  message_it : List Char
  message_en : List Char
  details : List Char
  deriving DecidableEq

/-- The raw result dictionary of `calculator.run_prevision`. -/
structure PrevOutput where
  displacement_calculated : List ℚ
  velocity : List ℚ
  critical_water_table : List ℚ
  safety_factor : List ℚ
  mu : Option ℚ
  deriving DecidableEq

/-- The argument list of `calculator.run_prevision`. -/
structure PrevArgs where
  geometry : JsonDict
  geotechnical_params : JsonDict
  model_params : JsonDict
  time_array : List ℚ
  water_table_calculated : List ℚ
  displacement_measured : List ℚ
  num_harmonics : ℚ
  calculate_viscosity : Bool
  molt_spost : ℚ
  molt_out_spost : ℚ
  sec : ℚ

/-- The external .NET calculation engine, an opaque collaborator: the two
operations `PrevisionView.post` invokes, each able to raise `DotNetError`. -/
structure Engine where
  calculate_water_table :
    (rainfall : List ℚ) → (hs kt an ho hmin alpha : ℚ) →
      Except EngError (List ℚ)
  run_prevision : PrevArgs → Except EngError PrevOutput

/-- `format_indexed_data` of `function_views.py`. -/
def format_indexed_data (data : List (Int × ℚ)) : List (Int × ℚ) :=
  data.map (fun p => (p.1, p.2))

/-- `format_array_as_indexed` of `function_views.py`. -/
def format_array_as_indexed (values : List ℚ) : List (Int × ℚ) :=
  values.enum.map (fun p => ((p.1 : Int), p.2))

/-- The `results` payload of a successful prevision response. -/
structure PrevResults where
  time : List (Int × ℚ)
  displacement_calculated : List (Int × ℚ)
  displacement_measured : List (Int × ℚ)
  velocity : List (Int × ℚ)
  critical_water_table : List (Int × ℚ)
  safety_factor : List (Int × ℚ)
  water_table_calculated : List (Int × ℚ)
  water_table_measured : List (Int × ℚ)
  calibrated_viscosity : Option ℚ
  deriving DecidableEq

/-- The four response shapes of `PrevisionView.post` with their status
codes and `error_code` values. -/
inductive PrevResponse
  /-- 400, structural validation errors, no `error_code`. -/
  | badRequest (errors : List VMsg)
  /-- 404, `error_code = DATA_NOT_FOUND`. -/
  | notFound (errors : List VMsg)
  /-- 500, `error_code = PREVISION_FAILED`, with diagnostic details. -/
  | engineFailure (e : EngError)
  /-- 200, `success = True`. -/
  | ok (results : PrevResults)
  deriving DecidableEq

/-- Required geometry keys. -/
def required_geo : List (List Char) :=
  [cs "l1", cs "l2", cs "h", cs "beta1", cs "beta2", cs "i_pc"]

/-- Required geotechnical keys. -/
def required_geotech : List (List Char) :=
  [cs "gamma_sat", cs "gamma_w", cs "fi", cs "c", cs "mu"]

/-- Required model-parameter keys. -/
def required_model : List (List Char) :=
  [cs "hs", cs "kt", cs "an", cs "ho", cs "hmin"]

/-- The `unit_to_meters` dictionary of `PrevisionView.post`. -/
def unit_to_meters : List (List Char × ℚ) :=
  [(cs "mm", 1 / 1000), (cs "cm", 1 / 100), (cs "m", 1)]

/-- `unit_to_meters.get(displacement_unit, 0.01)`. -/
def molt_spost_of (displacement_unit : List Char) : ℚ :=
  (unit_to_meters.lookup displacement_unit).getD (1 / 100)

/-- The `time_unit_to_sec` dictionary of `PrevisionView.post`. -/
def time_unit_to_sec : List (List Char × ℚ) :=
  [(cs "giorni", 86400), (cs "mesi", 2592000), (cs "anni", 31104000)]

/-- `time_unit_to_sec.get(time_unit, 2592000.0)`. -/
def sec_of (time_unit : List Char) : ℚ :=
  (time_unit_to_sec.lookup time_unit).getD 2592000

/-- The structural validation pass of `PrevisionView.post`, in source
order: dataset_uuid (falsy check, then UUID parse), prevision_type,
geometry, geotechnical_params, model_params (falsy check, then missing
required keys).  The unit fields are never validated. -/
def previsionValidationErrors (req : PrevRequest) : List VMsg :=
  (match req.dataset_uuid with
    | none => [.uuidRequired]
    | some s =>
      if s.isEmpty then [.uuidRequired]
      else match pyUUID s with
        | none => [.uuidInvalid]
        | some _ => [])
  ++ (let pt := req.prevision_type.getD (cs "standard")
      if pt = cs "standard" ∨ pt = cs "best_fit_viscosity" then []
      else [.invalidPrevisionType])
  ++ (match req.geometry with
    | none => [.geometryRequired]
    | some g =>
      if g.isEmpty then [.geometryRequired]
      else
        let missing := required_geo.filter (fun k => (g.lookup k).isNone)
        if missing.isEmpty then [] else [.geometryMissing missing])
  ++ (match req.geotechnical_params with
    | none => [.geotechRequired]
    | some g =>
      if g.isEmpty then [.geotechRequired]
      else
        let missing := required_geotech.filter (fun k => (g.lookup k).isNone)
        if missing.isEmpty then [] else [.geotechMissing missing])
  ++ (match req.model_params with
    | none => [.modelParamsRequired]
    | some g =>
      if g.isEmpty then [.modelParamsRequired]
      else
        let missing := required_model.filter (fun k => (g.lookup k).isNone)
        if missing.isEmpty then [] else [.modelParamsMissing missing])

/-- `PrevisionView.post` of `function_views.py` after the structural
validation succeeded, with the request fields whose presence that pass
guarantees already destructured (the dictionary indexing `mp['hs']` etc.
cannot miss on this path, so `getD 0` never supplies its default). -/
def previsionCore (engine : Engine) (st : Store) (req : PrevRequest)
    (u : List Char) (geo gt mp : JsonDict) : PrevResponse :=
  let data_errors :=
    check_required_data st u [cs "pioggia", cs "falda", cs "spostamento"]
  if ¬data_errors.isEmpty then .notFound data_errors
  else
    match get_imported_data st u (cs "pioggia") with
    | .error e => .notFound [e]
    | .ok rainfall_data =>
    match get_imported_data st u (cs "falda") with
    | .error e => .notFound [e]
    | .ok water_table_data =>
    match get_imported_data st u (cs "spostamento") with
    | .error e => .notFound [e]
    | .ok displacement_data =>
      let rainfall_values := rainfall_data.map (fun p => p.2)
      let displacement_unit := req.displacement_unit.getD (cs "cm")
      let molt_spost := molt_spost_of displacement_unit
      let molt_out_spost := 1 / molt_spost
      let time_unit := req.time_unit.getD (cs "mesi")
      let sec := sec_of time_unit
      let num_harmonics :=
        (((req.analysis_settings.getD []).lookup (cs "num_harmonics")).getD 100)
      let prevision_type := req.prevision_type.getD (cs "standard")
      match engine.calculate_water_table rainfall_values
          ((mp.lookup (cs "hs")).getD 0) ((mp.lookup (cs "kt")).getD 0)
          ((mp.lookup (cs "an")).getD 0) ((mp.lookup (cs "ho")).getD 0)
          ((mp.lookup (cs "hmin")).getD 0) ((geo.lookup (cs "i_pc")).getD 0) with
      | .error e => .engineFailure e
      | .ok calculated_wt =>
        let time_array : List ℚ :=
          (List.range rainfall_data.length).map (fun i => (i : ℚ))
        let n_time := time_array.length
        let displacement_values :=
          interpolate_to_integer_grid displacement_data n_time
        match engine.run_prevision
            ⟨geo, gt, mp, time_array, calculated_wt, displacement_values,
              num_harmonics, prevision_type = cs "best_fit_viscosity",
              molt_spost, molt_out_spost, sec⟩ with
        | .error e => .engineFailure e
        | .ok result =>
          let disp_calc :=
            result.displacement_calculated.map (fun v => v * molt_out_spost)
          let h := (geo.lookup (cs "h")).getD 0
          let critical_wt := result.critical_water_table.map (fun v => v - h)
          .ok
            { time := format_array_as_indexed time_array
              displacement_calculated := format_array_as_indexed disp_calc
              displacement_measured := format_indexed_data displacement_data
              velocity := format_array_as_indexed result.velocity
              critical_water_table := format_array_as_indexed critical_wt
              safety_factor := format_array_as_indexed result.safety_factor
              water_table_calculated := format_array_as_indexed calculated_wt
              water_table_measured := format_indexed_data water_table_data
              calibrated_viscosity := result.mu }

/-- `PrevisionView.post` of `function_views.py`: the structural validation
pass, then the data gate, retrieval, unit conversion, engine invocation and
result reshaping.  The final catch-all arm is unreachable: an empty error
list guarantees the matched fields are present and the UUID parses. -/
def previsionPost (engine : Engine) (st : Store) (req : PrevRequest) :
    PrevResponse :=
  let errors := previsionValidationErrors req
  if ¬errors.isEmpty then .badRequest errors
  else
    match req.dataset_uuid, req.geometry, req.geotechnical_params,
        req.model_params with
    | some us, some geo, some gt, some mp =>
      match pyUUID us with
      | some u => previsionCore engine st req u geo gt mp
      | none => .badRequest []
    | _, _, _, _ => .badRequest []

/-! ## Claim-side vocabulary

Definitions below formalise terms the claims use ("comma-decimal numeral",
"file consisting of 12 tab-delimited rows"); they are stated from the
claims' words, not from the source, and are compared with the source
embedding by the theorems. -/

/-- Unsigned comma-decimal numeral body: digits, optionally followed by a
comma and more digits. -/
def unsignedCommaBody (s : List Char) : Bool :=
  match splitOnChar ',' s with
  | [a] => allDigits a
  | [a, b] => allDigits a && allDigits b
  | _ => false

/-- A comma-decimal numeral: optional sign, digits, optional comma-separated
fractional digits. -/
def isCommaNumeral (s : List Char) : Bool :=
  unsignedCommaBody (signSplit s).2

/-- Value of the unsigned comma-numeral body, reading the comma as the
decimal separator. -/
def unsignedCommaVal (s : List Char) : ℚ :=
  match splitOnChar ',' s with
  | [a] => (digitsToNat a : ℚ)
  | [a, b] => (digitsToNat a : ℚ) + (digitsToNat b : ℚ) / (10 : ℚ) ^ b.length
  | _ => 0

/-- The numeric value of a comma-decimal numeral ("the row's second field
after replacing the comma with a dot"). -/
def commaNumeralVal (s : List Char) : ℚ :=
  (if (signSplit s).1 then (-1 : ℚ) else 1) * unsignedCommaVal (signSplit s).2

/-- Decimal rendering of a natural number. -/
def natChars (n : Nat) : List Char := Nat.toDigits 10 n

/-- Join line contents with a separator character between consecutive
lines (no trailing separator). -/
def joinWith (c : Char) : List (List Char) → List Char
  | [] => []
  | [l] => l
  | l :: ls => l ++ c :: joinWith c ls

/-- The file the claim describes: 12 newline-separated rows, row `i`
consisting of the decimal rendering of `i`, a tab, and the given value
field. -/
def fileOf (vals : List (List Char)) : List Char :=
  joinWith '\n'
    (List.zipWith (fun i v => natChars i ++ '\t' :: v) (List.range 12) vals)

/-! ## Utility lemmas: trim, split, join -/

lemma dropWhile_eq_self_of_head (p : Char → Bool) (s : List Char)
    (h : ∀ a, s.head? = some a → p a = false) : s.dropWhile p = s := by
  cases s with
  | nil => rfl
  | cons a t => simp [List.dropWhile_cons, h a rfl]

lemma trim_eq_self (s : List Char)
    (h1 : ∀ a, s.head? = some a → isPySpace a = false)
    (h2 : ∀ a, s.getLast? = some a → isPySpace a = false) : trim s = s := by
  unfold trim
  rw [dropWhile_eq_self_of_head _ _ h1]
  rw [dropWhile_eq_self_of_head, List.reverse_reverse]
  intro a ha
  exact h2 a (by rwa [List.head?_reverse] at ha)

lemma trim_eq_self_of_chars (s : List Char)
    (h : ∀ a ∈ s, isPySpace a = false) : trim s = s := by
  refine trim_eq_self s (fun a ha => h a ?_) (fun a ha => h a ?_)
  · exact List.mem_of_mem_head? ha
  · exact List.mem_of_mem_getLast? ha

lemma splitOnChar_ne_nil (c : Char) (s : List Char) : splitOnChar c s ≠ [] := by
  induction s with
  | nil => simp [splitOnChar]
  | cons a t ih =>
    by_cases h : a = c
    · simp [splitOnChar, h]
    · simp only [splitOnChar, if_neg h]
      cases hsp : splitOnChar c t <;> simp

lemma splitOnChar_of_not_mem {c : Char} {s : List Char}
    (h : ∀ a ∈ s, a ≠ c) : splitOnChar c s = [s] := by
  induction s with
  | nil => rfl
  | cons a t ih =>
    have ha : a ≠ c := h a (.head _)
    have ht := ih (fun x hx => h x (List.mem_cons_of_mem _ hx))
    simp only [splitOnChar, if_neg ha, ht]

lemma splitOnChar_append (c : Char) (l r : List Char)
    (hl : ∀ a ∈ l, a ≠ c) :
    splitOnChar c (l ++ c :: r) = l :: splitOnChar c r := by
  induction l with
  | nil => simp [splitOnChar]
  | cons a t ih =>
    have ha : a ≠ c := hl a (.head _)
    have ht := ih (fun x hx => hl x (List.mem_cons_of_mem _ hx))
    simp only [List.cons_append, splitOnChar, if_neg ha]
    rw [List.append_eq, ht]

lemma joinWith_splitOnChar (c : Char) (s : List Char) :
    joinWith c (splitOnChar c s) = s := by
  induction s with
  | nil => rfl
  | cons a t ih =>
    by_cases h : a = c
    · subst h
      simp only [splitOnChar, if_pos rfl]
      cases hsp : splitOnChar a t with
      | nil => exact absurd hsp (splitOnChar_ne_nil a t)
      | cons p ps =>
        rw [hsp] at ih
        simpa [joinWith] using ih
    · simp only [splitOnChar, if_neg h]
      cases hsp : splitOnChar c t with
      | nil => exact absurd hsp (splitOnChar_ne_nil c t)
      | cons p ps =>
        rw [hsp] at ih
        cases ps with
        | nil => simpa [joinWith] using ih
        | cons q qs => simpa [joinWith] using ih

lemma splitOnChar_parts (c : Char) (s : List Char) :
    ∀ p ∈ splitOnChar c s, ∀ a ∈ p, a ≠ c := by
  induction s with
  | nil => simp [splitOnChar]
  | cons a t ih =>
    by_cases h : a = c
    · subst h
      simp only [splitOnChar, if_pos rfl]
      intro p hp
      rcases List.mem_cons.mp hp with h1 | h1
      · subst h1; simp
      · exact ih p h1
    · simp only [splitOnChar, if_neg h]
      cases hsp : splitOnChar c t with
      | nil => exact absurd hsp (splitOnChar_ne_nil c t)
      | cons q qs =>
        intro p hp
        rcases List.mem_cons.mp hp with h1 | h1
        · subst h1
          intro x hx
          rcases List.mem_cons.mp hx with h2 | h2
          · subst h2; exact h
          · exact ih q (by rw [hsp]; exact .head _) x h2
        · exact ih p (by rw [hsp]; exact List.mem_cons_of_mem _ h1)

lemma replaceChar_of_not_mem {old new : Char} {s : List Char}
    (h : ∀ a ∈ s, a ≠ old) : replaceChar old new s = s := by
  unfold replaceChar
  have hc : ∀ a ∈ s, (if a = old then new else a) = a :=
    fun a ha => if_neg (h a ha)
  rw [List.map_congr_left hc]
  exact List.map_id' s

lemma splitFirst_eq_none {p : Char → Bool} {s : List Char}
    (h : ∀ a ∈ s, p a = false) : splitFirst p s = none := by
  induction s with
  | nil => rfl
  | cons a t ih =>
    have h1 := h a (.head _)
    have h2 := ih (fun x hx => h x (List.mem_cons_of_mem _ hx))
    simp [splitFirst, h1, h2]

/-! ## Validator invariants -/

lemma mem_add_error {r : ValidationResult} {e x : VError} :
    x ∈ (r.add_error e).errors ↔ x ∈ r.errors ∨ x = e := by
  simp [ValidationResult.add_error]

/-- Invariant carried through the per-row loop: the valid/errors iff, and
`data` untouched. -/
def loopInv (r : ValidationResult) : Prop :=
  (r.valid = false ↔ r.errors ≠ []) ∧ r.data = none

lemma loopInv_add_error {r : ValidationResult} (e : VError)
    (h : loopInv r) : loopInv (r.add_error e) := by
  refine ⟨by simp [ValidationResult.add_error], ?_⟩
  simpa [ValidationResult.add_error] using h.2

lemma processRow_loopInv (i : Nat) (l : List Char) (res : ValidationResult)
    (parsed : List Row) (h : loopInv res) :
    loopInv (processRow i l res parsed).1 := by
  unfold processRow
  split
  · split
    · split <;> split <;>
        first
          | exact h
          | exact loopInv_add_error _ h
          | exact loopInv_add_error _ (loopInv_add_error _ h)
    · exact loopInv_add_error _ h
  · exact loopInv_add_error _ h

lemma processRows_loopInv (lines : List (List Char)) (start : Nat)
    (res : ValidationResult) (parsed : List Row) (h : loopInv res) :
    loopInv (processRows start lines res parsed).1 := by
  induction lines generalizing start res parsed with
  | nil => exact h
  | cons l ls ih =>
    exact ih _ _ _ (processRow_loopInv start l res parsed h)

lemma processRow_no_decode (i : Nat) (l : List Char) (res : ValidationResult)
    (parsed : List Row) (h : VError.decodeFailed ∉ res.errors) :
    VError.decodeFailed ∉ (processRow i l res parsed).1.errors := by
  unfold processRow
  split
  · split
    · split <;> split <;> simp_all [mem_add_error]
    · simp_all [mem_add_error]
  · simp_all [mem_add_error]

lemma processRows_no_decode (lines : List (List Char)) (start : Nat)
    (res : ValidationResult) (parsed : List Row)
    (h : VError.decodeFailed ∉ res.errors) :
    VError.decodeFailed ∉ (processRows start lines res parsed).1.errors := by
  induction lines generalizing start res parsed with
  | nil => exact h
  | cons l ls ih =>
    exact ih _ _ _ (processRow_no_decode start l res parsed h)

lemma validateLines_no_decode (lines : List (List Char)) :
    VError.decodeFailed ∉ (validateLines lines).errors := by
  have hbase : ∀ b : ValidationResult, VError.decodeFailed ∉ b.errors →
      VError.decodeFailed ∉
        (if (processRows 0 lines b []).1.valid then
          { (processRows 0 lines b []).1 with
              data := some (processRows 0 lines b []).2 }
        else (processRows 0 lines b []).1).errors := by
    intro b hb
    have hp := processRows_no_decode lines 0 b [] hb
    split <;> simpa using hp
  simp only [validateLines]
  by_cases hc : lines.length ≠ 12
  · simp only [if_pos hc]
    exact hbase _ (by simp [ValidationResult.init, mem_add_error])
  · simp only [if_neg hc]
    exact hbase _ (by simp [ValidationResult.init])

lemma validateContent_no_decode (content : List Char) :
    VError.decodeFailed ∉ (validateContent content).errors :=
  validateLines_no_decode _

/-- C10: the Latin-1 fallback accepts every byte sequence, so decoding
always succeeds, the "Unable to decode file" error is never produced, and
validation of a bytes input always proceeds to line-level validation of
the decoded string. -/
theorem c10_decode_never_fails (b : List Byte) :
    (∃ s, decodeBytes b = some s ∧
      validate_data_file (.bytes b) = validate_data_file (.str s)) ∧
    VError.decodeFailed ∉ (validate_data_file (.bytes b)).errors := by
  have hd : ∃ s, decodeBytes b = some s := by
    unfold decodeBytes
    cases h : utf8Decode b with
    | some s => exact ⟨s, rfl⟩
    | none => exact ⟨_, rfl⟩
  obtain ⟨s, hs⟩ := hd
  refine ⟨⟨s, hs, by simp [validate_data_file, hs]⟩, ?_⟩
  simpa [validate_data_file, hs] using validateContent_no_decode s

/-- The property C3 asserts of every result. -/
def resultInv (r : ValidationResult) : Prop :=
  (r.valid = false ↔ r.errors ≠ []) ∧ (r.data = none ∨ r.valid = true)

/-- The results reachable from the initial state by `add_error` /
`add_warning` calls. -/
inductive ReachableResult : ValidationResult → Prop
  | init : ReachableResult ValidationResult.init
  | add_error (r : ValidationResult) (e : VError) :
      ReachableResult r → ReachableResult (r.add_error e)
  | add_warning (r : ValidationResult) (w : VError) :
      ReachableResult r → ReachableResult (r.add_warning w)

lemma reachable_loopInv {r : ValidationResult} (h : ReachableResult r) :
    loopInv r := by
  induction h with
  | init => exact ⟨by simp [ValidationResult.init], rfl⟩
  | add_error r e _ ih => exact loopInv_add_error e ih
  | add_warning r w _ ih =>
    exact ⟨by simpa [ValidationResult.add_warning] using ih.1,
      by simpa [ValidationResult.add_warning] using ih.2⟩

/-- C3: every result reachable by `add_error`/`add_warning` from the
initial state, and every result of `validate_data_file`, has `valid` false
iff `errors` is nonempty and has `data` populated only when `valid` is
true; and `add_warning` never changes `valid`. -/
theorem c3_result_invariant :
    (∀ r : ValidationResult, ReachableResult r → resultInv r) ∧
    (∀ r : ValidationResult, ∀ w : VError,
      (r.add_warning w).valid = r.valid) ∧
    (∀ content : FileContent, resultInv (validate_data_file content)) := by
  refine ⟨fun r h => ⟨(reachable_loopInv h).1, .inl (reachable_loopInv h).2⟩,
    fun r w => rfl, fun content => ?_⟩
  have hlines : ∀ lines : List (List Char), resultInv (validateLines lines) := by
    intro lines
    have hbase : ∀ b : ValidationResult, loopInv b →
        resultInv (if (processRows 0 lines b []).1.valid then
          { (processRows 0 lines b []).1 with
              data := some (processRows 0 lines b []).2 }
        else (processRows 0 lines b []).1) := by
      intro b hb
      have hinv := processRows_loopInv lines 0 b [] hb
      by_cases hv : (processRows 0 lines b []).1.valid
      · simp only [if_pos hv]
        exact ⟨by simpa using hinv.1, .inr (by simpa using hv)⟩
      · simp only [if_neg hv]
        exact ⟨hinv.1, .inl hinv.2⟩
    simp only [validateLines]
    by_cases hc : lines.length ≠ 12
    · simp only [if_pos hc]
      exact hbase _ (loopInv_add_error _ ⟨by simp [ValidationResult.init], rfl⟩)
    · simp only [if_neg hc]
      exact hbase _ ⟨by simp [ValidationResult.init], rfl⟩
  cases content with
  | str s => exact hlines _
  | bytes b =>
    cases h : decodeBytes b with
    | some s => simpa [validate_data_file, h] using hlines (extractLines (stripBOM s))
    | none =>
      simp only [validate_data_file, h]
      exact ⟨by simp [ValidationResult.init, ValidationResult.add_error],
        .inl rfl⟩

/-- C2: in the per-row loop, a first field that does not parse as an
integer records an "invalid index" error and skips the row entirely (the
value field is never parsed, whatever it contains); a first field that
parses as an integer different from the 0-based position records a
"non-sequential index" error but value parsing is still attempted. -/
theorem c2_index_error_asymmetry (i : Nat) (line : List Char)
    (res : ValidationResult) (parsed : List Row) (p0 p1 : List Char)
    (hsplit : splitOnChar '\t' line = [p0, p1]) :
    (pyInt (trim p0) = none →
      processRow i line res parsed =
        (res.add_error (.invalidIndex (i + 1) (trim p0)), parsed)) ∧
    (∀ idx : Int, pyInt (trim p0) = some idx → idx ≠ (i : Int) →
      VError.nonSequentialIndex (i + 1) i idx ∈
        (processRow i line res parsed).1.errors ∧
      ((∃ v, parse_european_float (trim p1) = some v ∧
          processRow i line res parsed =
            (res.add_error (.nonSequentialIndex (i + 1) i idx),
              parsed ++ [⟨idx, v⟩])) ∨
        (parse_european_float (trim p1) = none ∧
          processRow i line res parsed =
            ((res.add_error (.nonSequentialIndex (i + 1) i idx)).add_error
              (.invalidValue (i + 1) (trim p1)), parsed)))) := by
  constructor
  · intro hnone
    simp only [processRow, hsplit, hnone]
  · intro idx hsome hneq
    simp only [processRow, hsplit, hsome, if_pos hneq]
    cases hp : parse_european_float (trim p1) with
    | some v =>
      exact ⟨by simp [mem_add_error], .inl ⟨v, rfl, rfl⟩⟩
    | none =>
      exact ⟨by simp [mem_add_error], .inr ⟨rfl, rfl⟩⟩

/-- Witness for C2 at concrete rows: `"x\t1,5"` has a non-integer index
field, so the row is dropped with an invalid-index error and its value is
not parsed; `"5\t1,5"` at position 0 records a non-sequential-index error
yet still parses and appends the value. -/
theorem c2_index_error_asymmetry_witness :
    processRow 0 (cs "x\t1,5") ValidationResult.init [] =
      (ValidationResult.init.add_error (.invalidIndex 1 (cs "x")), []) ∧
    VError.nonSequentialIndex 1 0 5 ∈
      (processRow 0 (cs "5\t1,5") ValidationResult.init []).1.errors := by
  constructor
  · exact (c2_index_error_asymmetry 0 (cs "x\t1,5") ValidationResult.init []
      (cs "x") (cs "1,5") (by decide)).1 (by decide)
  · exact ((c2_index_error_asymmetry 0 (cs "5\t1,5") ValidationResult.init []
      (cs "5") (cs "1,5") (by decide)).2 5 (by decide) (by decide)).1

/-! ## Series store: full replace and round trip -/

lemma foldl_insertRow (data : List Row) (st : Store) (name : List Char)
    (cur : List Row) (h : st name = some cur) :
    (data.foldl (fun s r => insertRow s name r) st) name = some (cur ++ data) := by
  induction data generalizing st cur with
  | nil => simpa using h
  | cons r rest ih =>
    simp only [List.foldl_cons]
    have := ih (insertRow st name r) (cur ++ [r]) (by simp [insertRow, h])
    simpa using this

/-- C5: `import_data` reports `rows_imported` equal to the input length and
(whatever was stored before for that key) leaves exactly the input rows in
the table; a subsequent `get_imported_data` succeeds and returns the rows
sorted ascending by index, content-equal (a permutation of) the input. -/
theorem c5_replace_read_roundtrip (st : Store) (u t : List Char)
    (rows : List Row) :
    (import_data st u t rows).2.rows_imported = rows.length ∧
    (import_data st u t rows).1 (get_table_name u t) = some rows ∧
    ∃ l, get_imported_data (import_data st u t rows).1 u t = .ok l ∧
      l.Perm (rows.map (fun r => (r.index, r.value))) ∧
      l.Pairwise (fun p q => p.1 ≤ q.1) := by
  have hstored : (import_data st u t rows).1 (get_table_name u t) = some rows := by
    simp only [import_data]
    have := foldl_insertRow rows (create_import_table st u t).1
      (get_table_name u t) [] (by simp [create_import_table])
    simpa [create_import_table] using this
  refine ⟨rfl, hstored, ?_⟩
  refine ⟨(rows.mergeSort (fun a b => decide (a.index ≤ b.index))).map
    (fun r => (r.index, r.value)), ?_, ?_, ?_⟩
  · simp [get_imported_data, table_exists, hstored]
  · exact (List.mergeSort_perm rows _).map _
  · have hsorted := @List.sorted_mergeSort Row
      (fun a b : Row => decide (a.index ≤ b.index))
      (fun a b c hab hbc => by
        simp only [decide_eq_true_eq] at *
        exact le_trans hab hbc)
      (fun a b => by
        simp only [Bool.or_eq_true, decide_eq_true_eq]
        exact le_total a.index b.index)
      rows
    exact List.Pairwise.map _ (fun a b hab => by
      simpa [decide_eq_true_eq] using hab) hsorted

/-! ## Table identifiers (C6) -/

lemma hex_ne_hyphen {x : Char} (h : isHexDigit x = true) : x ≠ '-' := by
  intro he
  subst he
  simp [isHexDigit, isAsciiDigit] at h

lemma canonical_shape {s : List Char} (h : isCanonicalUUID s = true) :
    ∃ a b c d e : List Char,
      s = a ++ '-' :: (b ++ '-' :: (c ++ '-' :: (d ++ '-' :: e))) ∧
      a.length = 8 ∧ b.length = 4 ∧ c.length = 4 ∧ d.length = 4 ∧
      e.length = 12 ∧ (∀ x ∈ a ++ b ++ c ++ d ++ e, x ≠ '-') := by
  unfold isCanonicalUUID at h
  split at h
  case _ a b c d e heq =>
    simp only [Bool.and_eq_true, decide_eq_true_eq, List.all_eq_true] at h
    obtain ⟨⟨⟨⟨⟨ha, hb⟩, hc⟩, hd⟩, he⟩, hhex⟩ := h
    refine ⟨a, b, c, d, e, ?_, ha, hb, hc, hd, he,
      fun x hx => hex_ne_hyphen (hhex x hx)⟩
    have hjoin := joinWith_splitOnChar '-' s
    rw [heq] at hjoin
    simpa [joinWith] using hjoin.symm
  case _ => simp at h

lemma filter_hyphens {s a b c d e : List Char}
    (hs : s = a ++ '-' :: (b ++ '-' :: (c ++ '-' :: (d ++ '-' :: e))))
    (hfree : ∀ x ∈ a ++ b ++ c ++ d ++ e, x ≠ '-') :
    s.filter (fun ch => ch ≠ '-') = a ++ (b ++ (c ++ (d ++ e))) := by
  have hpart : ∀ l : List Char, (∀ x ∈ l, x ≠ '-') →
      l.filter (fun ch => ch ≠ '-') = l := by
    intro l hl
    exact List.filter_eq_self.mpr (fun x hx => by simp [hl x hx])
  simp only [List.mem_append] at hfree
  subst hs
  simp only [List.filter_append, List.filter_cons]
  rw [hpart a (fun x hx => hfree x (by tauto)),
    hpart b (fun x hx => hfree x (by tauto)),
    hpart c (fun x hx => hfree x (by tauto)),
    hpart d (fun x hx => hfree x (by tauto)),
    hpart e (fun x hx => hfree x (by tauto))]
  simp

/-- C6 counterexample: the identifier map is not collision-free in the
series type — the distinct types `a.b` and `a!b` produce the same table
identifier for the same dataset id. -/
theorem c6_counterexample :
    get_table_name (cs "123e4567-e89b-12d3-a456-426614174000") (cs "a.b") =
      get_table_name (cs "123e4567-e89b-12d3-a456-426614174000") (cs "a!b") ∧
    cs "a.b" ≠ cs "a!b" := by
  constructor
  · rfl
  · decide

/-- C6 (amended): the identifier is a deterministic function that removes
the hyphens from the dataset id and replaces every non-alphanumeric
character of the lowercased series-type token with an underscore; it is
injective in the dataset id (distinct canonical UUIDs never collide for
the same series type), but distinct series types may collide. -/
theorem c6_table_identifier (u1 u2 r : List Char)
    (h1 : isCanonicalUUID u1 = true) (h2 : isCanonicalUUID u2 = true) :
    (∀ u dr : List Char, get_table_name u dr =
      cs "import_" ++ u.filter (fun ch => ch ≠ '-') ++ '_' ::
        (dr.map Char.toLower).map
          (fun ch => if ch.isAlphanum || ch = '_' then ch else '_')) ∧
    (get_table_name u1 r = get_table_name u2 r → u1 = u2) := by
  refine ⟨fun u dr => rfl, fun heq => ?_⟩
  obtain ⟨a1, b1, c1, d1, e1, hs1, ha1, hb1, hc1, hd1, he1, hf1⟩ :=
    canonical_shape h1
  obtain ⟨a2, b2, c2, d2, e2, hs2, ha2, hb2, hc2, hd2, he2, hf2⟩ :=
    canonical_shape h2
  have hfil : u1.filter (fun ch => ch ≠ '-') ++ '_' ::
      (r.map Char.toLower).map
        (fun ch => if ch.isAlphanum || ch = '_' then ch else '_') =
      u2.filter (fun ch => ch ≠ '-') ++ '_' ::
      (r.map Char.toLower).map
        (fun ch => if ch.isAlphanum || ch = '_' then ch else '_') := by
    have h := heq
    simp only [get_table_name, List.append_assoc] at h
    exact List.append_cancel_left h
  rw [filter_hyphens hs1 hf1, filter_hyphens hs2 hf2] at hfil
  have hlen : (a1 ++ (b1 ++ (c1 ++ (d1 ++ e1)))).length =
      (a2 ++ (b2 ++ (c2 ++ (d2 ++ e2)))).length := by
    simp [ha1, hb1, hc1, hd1, he1, ha2, hb2, hc2, hd2, he2]
  obtain ⟨hcore, -⟩ := List.append_inj hfil hlen
  obtain ⟨hA, hrest1⟩ := List.append_inj hcore (ha1.trans ha2.symm)
  obtain ⟨hB, hrest2⟩ := List.append_inj hrest1 (hb1.trans hb2.symm)
  obtain ⟨hC, hrest3⟩ := List.append_inj hrest2 (hc1.trans hc2.symm)
  obtain ⟨hD, hE⟩ := List.append_inj hrest3 (hd1.trans hd2.symm)
  rw [hs1, hs2, hA, hB, hC, hD, hE]

/-- Witness for C3: the invariant holds after one `add_error` from the
initial state. -/
theorem c3_result_invariant_witness :
    resultInv (ValidationResult.init.add_error VError.decodeFailed) :=
  c3_result_invariant.1 _ (.add_error _ _ .init)

/-- Witness for C6 (amended) at a concrete dataset id and series type. -/
theorem c6_table_identifier_witness :
    get_table_name (cs "123e4567-e89b-12d3-a456-426614174000") (cs "pioggia") =
      cs "import_123e4567e89b12d3a456426614174000_pioggia" := by
  have h := (c6_table_identifier (cs "123e4567-e89b-12d3-a456-426614174000")
    (cs "123e4567-e89b-12d3-a456-426614174000") (cs "pioggia")
    (by decide) (by decide)).1 (cs "123e4567-e89b-12d3-a456-426614174000")
    (cs "pioggia")
  rw [h]
  decide

/-! ## Fixtures for the prevision endpoint -/

/-- Fixture: a canonical, already lowercase dataset id. -/
def uuidEx : List Char := cs "123e4567-e89b-12d3-a456-426614174000"

/-- Fixture: the water-table curve `engineEx` returns. -/
def wtEx : List ℚ := [2, 3]

/-- Fixture: the raw prevision output `engineEx` returns. -/
def prevOutEx : PrevOutput :=
  { displacement_calculated := [1, 2]
    velocity := [4]
    critical_water_table := [5, 25]
    safety_factor := [6]
    mu := none }

/-- Fixture: an engine with constant successful outputs. -/
def engineEx : Engine :=
  { calculate_water_table := fun _ _ _ _ _ _ _ => .ok wtEx
    run_prevision := fun _ => .ok prevOutEx }

/-- Fixture: a complete geometry dictionary. -/
def geoEx : JsonDict :=
  [(cs "l1", 409), (cs "l2", 314), (cs "h", 20), (cs "beta1", 5),
    (cs "beta2", 11), (cs "i_pc", 7)]

/-- Fixture: a complete geotechnical dictionary. -/
def gtEx : JsonDict :=
  [(cs "gamma_sat", 21), (cs "gamma_w", 10), (cs "fi", 30), (cs "c", 5),
    (cs "mu", 1)]

/-- Fixture: a complete model-parameter dictionary. -/
def mpEx : JsonDict :=
  [(cs "hs", 1), (cs "kt", 2), (cs "an", 3), (cs "ho", 4), (cs "hmin", 5)]

/-- Fixture: a structurally valid prevision request. -/
def reqEx : PrevRequest :=
  { dataset_uuid := some uuidEx
    prevision_type := none
    geometry := some geoEx
    geotechnical_params := some gtEx
    model_params := some mpEx
    analysis_settings := none
    displacement_unit := some (cs "cm")
    time_unit := none }

/-- Fixture: store holding only the rainfall series of `uuidEx`. -/
def storeRainOnly : Store := fun n =>
  if n = get_table_name uuidEx (cs "pioggia") then some [⟨0, 1⟩] else none

/-- Fixture: store holding all three series of `uuidEx`. -/
def storeFull : Store := fun n =>
  if n = get_table_name uuidEx (cs "pioggia") then some [⟨0, 1⟩, ⟨1, 2⟩]
  else if n = get_table_name uuidEx (cs "falda") then some [⟨0, 3⟩]
  else if n = get_table_name uuidEx (cs "spostamento") then some [⟨0, 4⟩]
  else none

/-! ## C7: all missing series reported together -/

lemma check_required_eq_filter (st : Store) (u : List Char)
    (ts : List (List Char)) :
    check_required_data st u ts =
      (ts.filter (fun t => !table_exists st (get_table_name u t))).map
        missingMsg := by
  have hfold : ∀ (ts : List (List Char)) (acc : List VMsg),
      ts.foldl (fun errs t => if table_exists st (get_table_name u t) then
        errs else errs ++ [missingMsg t]) acc =
      acc ++ (ts.filter (fun t => !table_exists st (get_table_name u t))).map
        missingMsg := by
    intro ts
    induction ts with
    | nil => simp
    | cons t ts ih =>
      intro acc
      simp only [List.foldl_cons, List.filter_cons]
      by_cases h : table_exists st (get_table_name u t)
      · simp [h, ih]
      · simp [h, ih]
  simpa using hfold ts []

lemma check_required_empty_iff (st : Store) (u : List Char)
    (ts : List (List Char)) :
    check_required_data st u ts = [] ↔
      ∀ t ∈ ts, table_exists st (get_table_name u t) = true := by
  rw [check_required_eq_filter]
  simp [List.filter_eq_nil_iff]

/-- C7: `check_required_data` returns exactly one message per missing
required type (in order) and is empty iff all are present; and a prevision
request whose structural validation passes, against a dataset with missing
series, answers DATA_NOT_FOUND carrying that whole list — all missing
series together, never only the first. -/
theorem c7_missing_series_aggregated :
    (∀ (st : Store) (u : List Char) (ts : List (List Char)),
      check_required_data st u ts =
        (ts.filter (fun t => !table_exists st (get_table_name u t))).map
          missingMsg ∧
      (check_required_data st u ts = [] ↔
        ∀ t ∈ ts, table_exists st (get_table_name u t) = true)) ∧
    (∀ (engine : Engine) (st : Store) (req : PrevRequest)
      (us u : List Char) (geo gt mp : JsonDict),
      previsionValidationErrors req = [] →
      req.dataset_uuid = some us → pyUUID us = some u →
      req.geometry = some geo → req.geotechnical_params = some gt →
      req.model_params = some mp →
      check_required_data st u [cs "pioggia", cs "falda", cs "spostamento"]
        ≠ [] →
      previsionPost engine st req =
        .notFound (check_required_data st u
          [cs "pioggia", cs "falda", cs "spostamento"])) := by
  refine ⟨fun st u ts =>
    ⟨check_required_eq_filter st u ts, check_required_empty_iff st u ts⟩,
    ?_⟩
  intro engine st req us u geo gt mp hv hus hpy hgeo hgt hmp hne
  have hcond : (check_required_data st u
      [cs "pioggia", cs "falda", cs "spostamento"]).isEmpty = false :=
    List.isEmpty_eq_false.mpr hne
  simp only [previsionPost, hv, hus, hgeo, hgt, hmp, hpy, previsionCore, hcond]
  simp

/-- Witness for C7: a dataset holding only rainfall answers a prevision
request with both the water-table and the displacement messages. -/
theorem c7_missing_series_aggregated_witness :
    previsionPost engineEx storeRainOnly reqEx =
      .notFound [missingMsg (cs "falda"), missingMsg (cs "spostamento")] := by
  have h := c7_missing_series_aggregated.2 engineEx storeRainOnly reqEx
    uuidEx uuidEx geoEx gtEx mpEx (by decide) rfl (by decide) rfl rfl rfl
    (by decide)
  rw [h]
  decide

/-! ## C8/C9: unit handling of the prevision endpoint -/

lemma molt_spost_of_default {du : List Char}
    (h1 : du ≠ cs "mm") (h2 : du ≠ cs "cm") (h3 : du ≠ cs "m") :
    molt_spost_of du = 1 / 100 := by
  have b1 : (du == cs "mm") = false := beq_eq_false_iff_ne.mpr h1
  have b2 : (du == cs "cm") = false := beq_eq_false_iff_ne.mpr h2
  have b3 : (du == cs "m") = false := beq_eq_false_iff_ne.mpr h3
  simp [molt_spost_of, unit_to_meters, List.lookup, b1, b2, b3]

lemma sec_of_default {tu : List Char}
    (h1 : tu ≠ cs "giorni") (h2 : tu ≠ cs "mesi") (h3 : tu ≠ cs "anni") :
    sec_of tu = 2592000 := by
  have b1 : (tu == cs "giorni") = false := beq_eq_false_iff_ne.mpr h1
  have b2 : (tu == cs "mesi") = false := beq_eq_false_iff_ne.mpr h2
  have b3 : (tu == cs "anni") = false := beq_eq_false_iff_ne.mpr h3
  simp [sec_of, time_unit_to_sec, List.lookup, b1, b2, b3]

/-- C9: a `displacement_unit` outside mm/cm/m and a `time_unit` outside
giorni/mesi/anni raise no validation error; the request behaves exactly as
if the defaults cm and mesi had been sent, using the factors 0.01 and
2592000. -/
theorem c9_unknown_units_silent (engine : Engine) (st : Store)
    (req : PrevRequest) (du tu : List Char)
    (hdu : du ≠ cs "mm" ∧ du ≠ cs "cm" ∧ du ≠ cs "m")
    (htu : tu ≠ cs "giorni" ∧ tu ≠ cs "mesi" ∧ tu ≠ cs "anni") :
    molt_spost_of du = 1 / 100 ∧ sec_of tu = 2592000 ∧
    previsionValidationErrors
        { req with displacement_unit := some du, time_unit := some tu } =
      previsionValidationErrors req ∧
    previsionPost engine st
        { req with displacement_unit := some du, time_unit := some tu } =
      previsionPost engine st
        { req with
            displacement_unit := some (cs "cm")
            time_unit := some (cs "mesi") } := by
  have hmolt := molt_spost_of_default hdu.1 hdu.2.1 hdu.2.2
  have hsec := sec_of_default htu.1 htu.2.1 htu.2.2
  have hcm : molt_spost_of (cs "cm") = 1 / 100 := by
    simp [molt_spost_of, unit_to_meters, List.lookup,
      (by decide : (cs "cm" == cs "mm") = false),
      (by decide : (cs "cm" == cs "cm") = true)]
  have hmesi : sec_of (cs "mesi") = 2592000 := by
    simp [sec_of, time_unit_to_sec, List.lookup,
      (by decide : (cs "mesi" == cs "giorni") = false),
      (by decide : (cs "mesi" == cs "mesi") = true)]
  obtain ⟨f1, f2, f3, f4, f5, f6, f7, f8⟩ := req
  refine ⟨hmolt, hsec, rfl, ?_⟩
  simp only [previsionPost, previsionValidationErrors, previsionCore,
    Option.getD_some, hmolt, hsec, hcm, hmesi]

/-- Witness for C9: a request with units "furlong"/"secoli" gets the same
response as one with the default units. -/
theorem c9_unknown_units_silent_witness :
    previsionPost engineEx storeRainOnly
        { reqEx with
            displacement_unit := some (cs "furlong")
            time_unit := some (cs "secoli") } =
      previsionPost engineEx storeRainOnly
        { reqEx with
            displacement_unit := some (cs "cm")
            time_unit := some (cs "mesi") } :=
  (c9_unknown_units_silent engineEx storeRainOnly reqEx
    (cs "furlong") (cs "secoli")
    ⟨by decide, by decide, by decide⟩ ⟨by decide, by decide, by decide⟩).2.2.2

lemma get_imported_data_ok (st : Store) (u dtype : List Char)
    (h : table_exists st (get_table_name u dtype) = true) :
    get_imported_data st u dtype =
      .ok ((((st (get_table_name u dtype)).getD []).mergeSort
          (fun a b => decide (a.index ≤ b.index))).map
        (fun r => (r.index, r.value))) := by
  simp [get_imported_data, h]

/-- C8: the displacement unit maps to the multiplier mm→0.001, cm→0.01
(the default), m→1.0; the time unit maps to giorni→86400, mesi→2592000
(the default), anni→31104000 seconds per step; each displacement value the
engine returns is divided by the multiplier in the response (for cm,
out = engine value / 0.01), and each reported critical-water-table value
is the engine's raw value minus `geometry.h`. -/
theorem c8_unit_conversion :
    (molt_spost_of (cs "mm") = 1 / 1000 ∧ molt_spost_of (cs "cm") = 1 / 100 ∧
      molt_spost_of (cs "m") = 1 ∧ sec_of (cs "giorni") = 86400 ∧
      sec_of (cs "mesi") = 2592000 ∧ sec_of (cs "anni") = 31104000) ∧
    (∀ (engine : Engine) (st : Store) (req : PrevRequest)
      (us u : List Char) (geo gt mp : JsonDict) (W : List ℚ) (R : PrevOutput),
      previsionValidationErrors req = [] →
      req.dataset_uuid = some us → pyUUID us = some u →
      req.geometry = some geo → req.geotechnical_params = some gt →
      req.model_params = some mp →
      check_required_data st u [cs "pioggia", cs "falda", cs "spostamento"]
        = [] →
      (∀ rain hs kt an ho hmin alpha,
        engine.calculate_water_table rain hs kt an ho hmin alpha = .ok W) →
      (∀ args, engine.run_prevision args = .ok R) →
      ∃ res, previsionPost engine st req = .ok res ∧
        res.displacement_calculated = format_array_as_indexed
          (R.displacement_calculated.map (fun v =>
            v / molt_spost_of (req.displacement_unit.getD (cs "cm")))) ∧
        res.critical_water_table = format_array_as_indexed
          (R.critical_water_table.map (fun v =>
            v - (geo.lookup (cs "h")).getD 0))) := by
  refine ⟨⟨?_, ?_, ?_, ?_, ?_, ?_⟩, ?_⟩
  · simp [molt_spost_of, unit_to_meters, List.lookup,
      (by decide : (cs "mm" == cs "mm") = true)]
  · simp [molt_spost_of, unit_to_meters, List.lookup,
      (by decide : (cs "cm" == cs "mm") = false),
      (by decide : (cs "cm" == cs "cm") = true)]
  · simp [molt_spost_of, unit_to_meters, List.lookup,
      (by decide : (cs "m" == cs "mm") = false),
      (by decide : (cs "m" == cs "cm") = false),
      (by decide : (cs "m" == cs "m") = true)]
  · simp [sec_of, time_unit_to_sec, List.lookup,
      (by decide : (cs "giorni" == cs "giorni") = true)]
  · simp [sec_of, time_unit_to_sec, List.lookup,
      (by decide : (cs "mesi" == cs "giorni") = false),
      (by decide : (cs "mesi" == cs "mesi") = true)]
  · simp [sec_of, time_unit_to_sec, List.lookup,
      (by decide : (cs "anni" == cs "giorni") = false),
      (by decide : (cs "anni" == cs "mesi") = false),
      (by decide : (cs "anni" == cs "anni") = true)]
  intro engine st req us u geo gt mp W R hv hus hpy hgeo hgt hmp hchk hcw hrp
  have hex := (check_required_empty_iff st u _).mp hchk
  have h1 := hex (cs "pioggia") (by simp)
  have h2 := hex (cs "falda") (by simp)
  have h3 := hex (cs "spostamento") (by simp)
  have hcond : (check_required_data st u
      [cs "pioggia", cs "falda", cs "spostamento"]).isEmpty = true := by
    rw [hchk]
    rfl
  simp only [previsionPost, hv, hus, hgeo, hgt, hmp, hpy, previsionCore,
    hcond, get_imported_data, h1, h2, h3, hcw, hrp, List.isEmpty_nil,
    eq_self_iff_true, not_true, if_false]
  refine ⟨_, rfl, ?_, rfl⟩
  simp [div_eq_mul_inv]

/-- Witness for C8: concrete store, request and constant engine; the
response scales displacement by 1/0.01 and shifts the critical water table
by `h`. -/
theorem c8_unit_conversion_witness :
    ∃ res, previsionPost engineEx storeFull reqEx = .ok res ∧
      res.displacement_calculated = format_array_as_indexed
        (prevOutEx.displacement_calculated.map (fun v =>
          v / molt_spost_of (reqEx.displacement_unit.getD (cs "cm")))) ∧
      res.critical_water_table = format_array_as_indexed
        (prevOutEx.critical_water_table.map (fun v =>
          v - (geoEx.lookup (cs "h")).getD 0)) :=
  c8_unit_conversion.2 engineEx storeFull reqEx uuidEx uuidEx geoEx gtEx mpEx
    wtEx prevOutEx (by decide) rfl (by decide) rfl rfl rfl (by decide)
    (fun _ _ _ _ _ _ _ => rfl) (fun _ => rfl)

/-! ## C4: grid interpolation -/

lemma takeWhile_length_le {α : Type} (p : α → Bool) (l : List α) :
    (l.takeWhile p).length ≤ l.length := by
  induction l with
  | nil => simp
  | cons a t ih =>
    rw [List.takeWhile_cons]
    by_cases h : p a = true
    · rw [if_pos h]
      simpa using ih
    · rw [if_neg h]
      simp

lemma takeWhile_getD_true {α : Type} (p : α → Bool) (l : List α) (d : α) :
    ∀ m, m < (l.takeWhile p).length → p (l.getD m d) = true := by
  induction l with
  | nil => simp
  | cons a t ih =>
    intro m hm
    rw [List.takeWhile_cons] at hm
    by_cases h : p a = true
    · rw [if_pos h] at hm
      simp only [List.length_cons] at hm
      cases m with
      | zero => simpa using h
      | succ n =>
        rw [List.getD_cons_succ]
        exact ih n (by omega)
    · rw [if_neg h] at hm
      simp at hm

lemma takeWhile_getD_false {α : Type} (p : α → Bool) (l : List α) (d : α)
    (h : (l.takeWhile p).length < l.length) :
    p (l.getD (l.takeWhile p).length d) = false := by
  induction l with
  | nil => simp at h
  | cons a t ih =>
    rw [List.takeWhile_cons] at h ⊢
    by_cases hp : p a = true
    · rw [if_pos hp] at h ⊢
      simp only [List.length_cons] at h ⊢
      rw [List.getD_cons_succ]
      exact ih (by omega)
    · rw [if_neg hp] at h ⊢
      simp only [List.length_nil, List.getD_cons_zero]
      simpa using hp

lemma le_takeWhile_length {α : Type} (p : α → Bool) (l : List α) (d : α) :
    ∀ n, n ≤ l.length → (∀ m, m < n → p (l.getD m d) = true) →
      n ≤ (l.takeWhile p).length := by
  induction l with
  | nil =>
    intro n hn _
    simpa using hn
  | cons a t ih =>
    intro n hn hall
    cases n with
    | zero => simp
    | succ m =>
      have hpa : p a = true := by simpa using hall 0 (by omega)
      rw [List.takeWhile_cons, if_pos hpa]
      simp only [List.length_cons]
      have hm := ih m (by simpa using hn) (fun k hk => by
        simpa [List.getD_cons_succ] using hall (k + 1) (by omega))
      omega

lemma pairwise_getD {α : Type} {R : α → α → Prop} {l : List α}
    (h : l.Pairwise R) (d : α) {j k : Nat} (hjk : j < k) (hk : k < l.length) :
    R (l.getD j d) (l.getD k d) := by
  have hj : j < l.length := lt_trans hjk hk
  rw [List.getD_eq_getElem l d hj, List.getD_eq_getElem l d hk]
  have := List.pairwise_iff_get.mp h ⟨j, hj⟩ ⟨k, hk⟩ hjk
  simpa [List.get_eq_getElem] using this

lemma map_fst_getD (data : List (Int × ℚ)) (m : Nat) (hm : m < data.length) :
    (data.map (fun p => (p.1 : ℚ))).getD m 0 =
      ((data.getD m ((0 : Int), (0 : ℚ))).1 : ℚ) := by
  rw [List.getD_eq_getElem _ _ (by simpa using hm),
    List.getD_eq_getElem _ _ hm, List.getElem_map]

lemma map_snd_getD (data : List (Int × ℚ)) (m : Nat) (hm : m < data.length) :
    (data.map (fun p => p.2)).getD m 0 = (data.getD m ((0 : Int), (0 : ℚ))).2 := by
  rw [List.getD_eq_getElem _ _ (by simpa using hm),
    List.getD_eq_getElem _ _ hm, List.getElem_map]

lemma interpolate_getD (data : List (Int × ℚ)) (grid_size : Nat)
    (hne : data ≠ []) (i : Nat) (hi : i < grid_size) :
    (interpolate_to_integer_grid data grid_size).getD i 0 =
      interpPoint (data.map (fun p => (p.1 : ℚ))) (data.map (fun p => p.2))
        (i : ℚ) := by
  have hemp : data.isEmpty = false := by simpa [List.isEmpty_eq_false]
  simp only [interpolate_to_integer_grid, hemp, Bool.false_eq_true, if_false]
  rw [List.getD_eq_getElem _ _ (by simpa using hi), List.getElem_map,
    List.getElem_range]

/-- C4: for ascending duplicate-free data, `interpolate_to_integer_grid`
maps empty input to a zero-filled grid of the requested size; otherwise
each integer grid point at or before the first sample's index gets the
first value, each at or after the last sample's index gets the last value,
and each point bracketed by consecutive samples `(x0,y0),(x1,y1)` with
`x0 <= i < x1` gets `y0*(i-x1)/(x0-x1) + y1*(i-x0)/(x1-x0)`. -/
theorem c4_grid_interpolation (data : List (Int × ℚ)) (grid_size : Nat)
    (hsorted : data.Pairwise (fun a b => a.1 < b.1)) :
    (data = [] → interpolate_to_integer_grid data grid_size =
      List.replicate grid_size 0) ∧
    (∀ i, i < grid_size →
      (∀ d0, data.head? = some d0 → (i : Int) ≤ d0.1 →
        (interpolate_to_integer_grid data grid_size).getD i 0 = d0.2) ∧
      (∀ dl, data.getLast? = some dl → dl.1 ≤ (i : Int) →
        (interpolate_to_integer_grid data grid_size).getD i 0 = dl.2) ∧
      (∀ j, j + 1 < data.length →
        (data.getD j ((0 : Int), (0 : ℚ))).1 ≤ (i : Int) →
        (i : Int) < (data.getD (j + 1) ((0 : Int), (0 : ℚ))).1 →
        (interpolate_to_integer_grid data grid_size).getD i 0 =
          (data.getD j ((0 : Int), (0 : ℚ))).2 *
              ((i : ℚ) - ((data.getD (j + 1) ((0 : Int), (0 : ℚ))).1 : ℚ)) /
              (((data.getD j ((0 : Int), (0 : ℚ))).1 : ℚ) -
                ((data.getD (j + 1) ((0 : Int), (0 : ℚ))).1 : ℚ)) +
            (data.getD (j + 1) ((0 : Int), (0 : ℚ))).2 *
              ((i : ℚ) - ((data.getD j ((0 : Int), (0 : ℚ))).1 : ℚ)) /
              (((data.getD (j + 1) ((0 : Int), (0 : ℚ))).1 : ℚ) -
                ((data.getD j ((0 : Int), (0 : ℚ))).1 : ℚ)))) := by
  have hmono : ∀ {j k : Nat}, j < k → k < data.length →
      (data.getD j ((0 : Int), (0 : ℚ))).1 <
        (data.getD k ((0 : Int), (0 : ℚ))).1 :=
    fun hjk hk => pairwise_getD hsorted _ hjk hk
  have hmono' : ∀ {j k : Nat}, j ≤ k → k < data.length →
      (data.getD j ((0 : Int), (0 : ℚ))).1 ≤
        (data.getD k ((0 : Int), (0 : ℚ))).1 := by
    intro j k hjk hk
    rcases Nat.lt_or_ge j k with h | h
    · exact le_of_lt (hmono h hk)
    · have : j = k := by omega
      subst this
      exact le_refl _
  constructor
  · intro h
    subst h
    simp [interpolate_to_integer_grid]
  intro i hi
  refine ⟨?_, ?_, ?_⟩
  · -- at or before the first sample
    intro d0 hd0 hle
    obtain ⟨t, ht⟩ := List.head?_eq_some_iff.mp hd0
    have hne : data ≠ [] := by simp [ht]
    have hlen0 : 0 < data.length := by simp [ht]
    rw [interpolate_getD data grid_size hne i hi]
    have hx0 : (i : ℚ) ≤ (data.map (fun p => (p.1 : ℚ))).getD 0 0 := by
      rw [map_fst_getD data 0 hlen0]
      have hd : (data.getD 0 ((0 : Int), (0 : ℚ))) = d0 := by
        simp [ht]
      rw [hd]
      exact_mod_cast hle
    rw [interpPoint, if_pos hx0, map_snd_getD data 0 hlen0]
    simp [ht]
  · -- at or after the last sample
    intro dl hdl hge
    have hne : data ≠ [] := by
      intro h
      rw [h] at hdl
      simp at hdl
    have hlen0 : 0 < data.length := List.length_pos.mpr hne
    have hlast : data.getD (data.length - 1) ((0 : Int), (0 : ℚ)) = dl := by
      have := List.getLast?_eq_getElem? data
      rw [hdl] at this
      rw [List.getD_eq_getElem _ _ (by omega)]
      have h2 := this.symm
      rw [List.getElem?_eq_getElem (by omega)] at h2
      exact Option.some_injective _ h2
    rw [interpolate_getD data grid_size hne i hi]
    have hxlast : (data.map (fun p => (p.1 : ℚ))).getD
        ((data.map (fun p => (p.1 : ℚ))).length - 1) 0 ≤ (i : ℚ) := by
      rw [List.length_map, map_fst_getD data _ (by omega), hlast]
      exact_mod_cast hge
    by_cases hx0 : (i : ℚ) ≤ (data.map (fun p => (p.1 : ℚ))).getD 0 0
    · -- only possible when the list is a single sample
      rw [interpPoint, if_pos hx0]
      have hle0 : (i : Int) ≤ (data.getD 0 ((0 : Int), (0 : ℚ))).1 := by
        rw [map_fst_getD data 0 hlen0] at hx0
        exact_mod_cast hx0
      have hone : data.length = 1 := by
        by_contra hlen1
        have h2 : 0 < data.length - 1 := by omega
        have := hmono h2 (by omega)
        rw [hlast] at this
        omega
      rw [map_snd_getD data 0 hlen0]
      have : data.getD 0 ((0 : Int), (0 : ℚ)) = dl := by
        rw [← hlast, hone]
      rw [this]
    · rw [interpPoint, if_neg hx0, if_pos hxlast, List.length_map,
        map_snd_getD data _ (by omega), hlast]
  · -- bracketed by consecutive samples
    intro j hj1 hle hlt
    have hjlen : j < data.length := by omega
    have hne : data ≠ [] := by
      intro h
      rw [h] at hj1
      simp at hj1
    have hlen0 : 0 < data.length := List.length_pos.mpr hne
    rw [interpolate_getD data grid_size hne i hi]
    by_cases hx0 : (i : ℚ) ≤ (data.map (fun p => (p.1 : ℚ))).getD 0 0
    · -- forces j = 0 and i equal to the first index
      have hle0 : (i : Int) ≤ (data.getD 0 ((0 : Int), (0 : ℚ))).1 := by
        rw [map_fst_getD data 0 hlen0] at hx0
        exact_mod_cast hx0
      have hj0 : j = 0 := by
        by_contra h0
        have := hmono (Nat.pos_of_ne_zero h0) hjlen
        omega
      subst hj0
      have hieq : (i : Int) = (data.getD 0 ((0 : Int), (0 : ℚ))).1 :=
        le_antisymm hle0 hle
      rw [interpPoint, if_pos hx0, map_snd_getD data 0 hlen0]
      have hqeq : (i : ℚ) = ((data.getD 0 ((0 : Int), (0 : ℚ))).1 : ℚ) := by
        exact_mod_cast hieq
      have hne01 : ((data.getD 0 ((0 : Int), (0 : ℚ))).1 : ℚ) -
          ((data.getD 1 ((0 : Int), (0 : ℚ))).1 : ℚ) ≠ 0 := by
        have := hmono (show (0 : Nat) < 1 by omega) hj1
        intro hcon
        have : ((data.getD 0 ((0 : Int), (0 : ℚ))).1 : ℚ) =
            ((data.getD 1 ((0 : Int), (0 : ℚ))).1 : ℚ) := by linarith
        have : (data.getD 0 ((0 : Int), (0 : ℚ))).1 =
            (data.getD 1 ((0 : Int), (0 : ℚ))).1 := by exact_mod_cast this
        omega
      rw [hqeq, sub_self, mul_zero, zero_div, add_zero, mul_div_assoc,
        div_self hne01, mul_one]
    · by_cases hxlast : (data.map (fun p => (p.1 : ℚ))).getD
          ((data.map (fun p => (p.1 : ℚ))).length - 1) 0 ≤ (i : ℚ)
      · -- impossible: i is strictly below data[j+1] <= the last index
        exfalso
        have hlastle : (data.getD (data.length - 1) ((0 : Int), (0 : ℚ))).1
            ≤ (i : Int) := by
          rw [List.length_map, map_fst_getD data _ (by omega)] at hxlast
          exact_mod_cast hxlast
        have hj1last : (data.getD (j + 1) ((0 : Int), (0 : ℚ))).1 ≤
            (data.getD (data.length - 1) ((0 : Int), (0 : ℚ))).1 :=
          hmono' (by omega) (by omega)
        omega
      · -- the while loop stops exactly at k = j + 1
        rw [interpPoint, if_neg hx0, if_neg hxlast]
        have hklen : ((data.map (fun p => (p.1 : ℚ))).takeWhile
            (fun xv => decide (xv ≤ (i : ℚ)))).length = j + 1 := by
          have hup : ((data.map (fun p => (p.1 : ℚ))).takeWhile
              (fun xv => decide (xv ≤ (i : ℚ)))).length ≤ j + 1 := by
            by_contra hgt
            have hj2 : j + 1 < ((data.map (fun p => (p.1 : ℚ))).takeWhile
                (fun xv => decide (xv ≤ (i : ℚ)))).length := by omega
            have := takeWhile_getD_true (fun xv => decide (xv ≤ (i : ℚ)))
              (data.map (fun p => (p.1 : ℚ))) 0 (j + 1) hj2
            rw [map_fst_getD data (j + 1) hj1, decide_eq_true_eq] at this
            have : (data.getD (j + 1) ((0 : Int), (0 : ℚ))).1 ≤ (i : Int) := by
              exact_mod_cast this
            omega
          have hdown : j + 1 ≤ ((data.map (fun p => (p.1 : ℚ))).takeWhile
              (fun xv => decide (xv ≤ (i : ℚ)))).length := by
            apply le_takeWhile_length _ _ 0 (j + 1) (by simpa using hjlen)
            intro m hm
            rw [map_fst_getD data m (by omega), decide_eq_true_eq]
            have : (data.getD m ((0 : Int), (0 : ℚ))).1 ≤
                (data.getD j ((0 : Int), (0 : ℚ))).1 :=
              hmono' (by omega) hjlen
            have hmq : (data.getD m ((0 : Int), (0 : ℚ))).1 ≤ (i : Int) := by
              omega
            exact_mod_cast hmq
          omega
        simp only [hklen, Nat.add_sub_cancel]
        rw [map_fst_getD data j hjlen, map_fst_getD data (j + 1) hj1,
          map_snd_getD data j hjlen, map_snd_getD data (j + 1) hj1]

/-- Witness for C4 at the ascending series [(0,1),(2,5)] on a grid of
size 4: grid point 1 is bracketed by the two samples and interpolates to
3; grid point 3 clamps to the last value 5. -/
theorem c4_grid_interpolation_witness :
    (interpolate_to_integer_grid [((0 : Int), (1 : ℚ)), (2, 5)] 4).getD 1 0
      = 3 ∧
    (interpolate_to_integer_grid [((0 : Int), (1 : ℚ)), (2, 5)] 4).getD 3 0
      = 5 := by
  have h := c4_grid_interpolation [((0 : Int), (1 : ℚ)), (2, 5)] 4
    (by simp)
  constructor
  · have hb := ((h.2 1 (by omega)).2.2) 0 (by simp) (by simp) (by simp)
    rw [hb]
    norm_num
  · have hl := ((h.2 3 (by omega)).2.1) (2, 5) (by simp) (by simp)
    exact hl

/-! ## C1: comma-numeral grammar facts -/

lemma digit_facts {c : Char} (h : isAsciiDigit c = true) :
    isPySpace c = false ∧ c ≠ '\n' ∧ c ≠ '\t' ∧ c ≠ ',' ∧ c ≠ '.' ∧
      isExpChar c = false ∧ c ≠ '+' ∧ c ≠ '-' ∧ c ≠ Char.ofNat 0xFEFF := by
  simp only [isAsciiDigit, Bool.and_eq_true, decide_eq_true_eq] at h
  obtain ⟨h1, h2⟩ := h
  refine ⟨?_, ?_, ?_, ?_, ?_, ?_, ?_, ?_, ?_⟩
  · simp only [isPySpace, Bool.or_eq_false_iff, decide_eq_false_iff_not]
    refine ⟨⟨⟨⟨⟨?_, ?_⟩, ?_⟩, ?_⟩, ?_⟩, ?_⟩ <;>
      exact fun he => absurd (he ▸ h1) (by decide)
  · exact fun he => absurd (he ▸ h1) (by decide)
  · exact fun he => absurd (he ▸ h1) (by decide)
  · exact fun he => absurd (he ▸ h1) (by decide)
  · exact fun he => absurd (he ▸ h1) (by decide)
  · simp only [isExpChar, Bool.or_eq_false_iff, decide_eq_false_iff_not]
    exact ⟨fun he => absurd (he ▸ h2) (by decide),
      fun he => absurd (he ▸ h2) (by decide)⟩
  · exact fun he => absurd (he ▸ h1) (by decide)
  · exact fun he => absurd (he ▸ h1) (by decide)
  · exact fun he => absurd (he ▸ h2) (by decide)

lemma allDigits_ne_nil {u : List Char} (h : allDigits u = true) : u ≠ [] := by
  unfold allDigits at h
  simp only [Bool.and_eq_true] at h
  simpa [List.isEmpty_eq_false] using h.1

lemma allDigits_mem {u : List Char} (h : allDigits u = true) :
    ∀ c ∈ u, isAsciiDigit c = true := by
  unfold allDigits at h
  simp only [Bool.and_eq_true] at h
  exact List.all_eq_true.mp h.2

lemma unsigned_body_cases {u : List Char} (h : unsignedCommaBody u = true) :
    allDigits u = true ∨
    ∃ a b, u = a ++ ',' :: b ∧ allDigits a = true ∧ allDigits b = true := by
  unfold unsignedCommaBody at h
  split at h
  case _ a heq =>
    left
    have hj := joinWith_splitOnChar ',' u
    rw [heq] at hj
    simp only [joinWith] at hj
    rwa [← hj]
  case _ a b heq =>
    right
    simp only [Bool.and_eq_true] at h
    obtain ⟨ha, hb⟩ := h
    have hj := joinWith_splitOnChar ',' u
    rw [heq] at hj
    simp only [joinWith] at hj
    exact ⟨a, b, hj.symm, ha, hb⟩
  case _ => simp at h

lemma unsigned_head {u : List Char} (h : unsignedCommaBody u = true) :
    ∃ c r, u = c :: r ∧ isAsciiDigit c = true := by
  rcases unsigned_body_cases h with hall | ⟨a, b, hu, ha, hb⟩
  · obtain ⟨c, r, hcr⟩ := List.exists_cons_of_ne_nil (allDigits_ne_nil hall)
    exact ⟨c, r, hcr, allDigits_mem hall c (by rw [hcr]; exact .head _)⟩
  · obtain ⟨c, r, hcr⟩ := List.exists_cons_of_ne_nil (allDigits_ne_nil ha)
    subst hu
    rw [hcr]
    exact ⟨c, r ++ ',' :: b, rfl,
      allDigits_mem ha c (by rw [hcr]; exact .head _)⟩

lemma unsigned_last {u : List Char} (h : unsignedCommaBody u = true) :
    ∃ c, u.getLast? = some c ∧ isAsciiDigit c = true := by
  have hlast : ∀ w : List Char, allDigits w = true →
      ∃ c, w.getLast? = some c ∧ isAsciiDigit c = true := by
    intro w hw
    obtain ⟨c, hc⟩ : ∃ c, w.getLast? = some c := by
      cases hwl : w.getLast? with
      | none =>
        exact absurd (List.getLast?_eq_none_iff.mp hwl) (allDigits_ne_nil hw)
      | some c => exact ⟨c, rfl⟩
    obtain ⟨ys, hys⟩ := List.getLast?_eq_some_iff.mp hc
    exact ⟨c, hc, allDigits_mem hw c (by rw [hys]; simp)⟩
  rcases unsigned_body_cases h with hall | ⟨a, b, hu, ha, hb⟩
  · exact hlast u hall
  · obtain ⟨c, hc, hdig⟩ := hlast b hb
    subst hu
    refine ⟨c, ?_, hdig⟩
    rw [List.getLast?_append_of_ne_nil _ (by simp)]
    obtain ⟨bh, bt, hbt⟩ := List.exists_cons_of_ne_nil (allDigits_ne_nil hb)
    rw [hbt, List.getLast?_cons_cons, ← hbt, hc]

lemma unsigned_chars {u : List Char} (h : unsignedCommaBody u = true) :
    ∀ c ∈ u, isAsciiDigit c = true ∨ c = ',' := by
  rcases unsigned_body_cases h with hall | ⟨a, b, hu, ha, hb⟩
  · exact fun c hc => .inl (allDigits_mem hall c hc)
  · subst hu
    intro c hc
    rcases List.mem_append.mp hc with h1 | h1
    · exact .inl (allDigits_mem ha c h1)
    · rcases List.mem_cons.mp h1 with h2 | h2
      · exact .inr h2
      · exact .inl (allDigits_mem hb c h2)

lemma commaNumeral_structure {v : List Char} (h : isCommaNumeral v = true) :
    (∀ c ∈ v, isPySpace c = false ∧ c ≠ '\n' ∧ c ≠ '\t') ∧
    (∃ c, v.getLast? = some c ∧ isAsciiDigit c = true) ∧ v ≠ [] := by
  unfold isCommaNumeral at h
  have hsign : ∀ {c : Char}, (isAsciiDigit c = true ∨ c = ',' ∨ c = '+' ∨
      c = '-') → isPySpace c = false ∧ c ≠ '\n' ∧ c ≠ '\t' := by
    intro c hc
    rcases hc with hd | hc | hc | hc
    · exact ⟨(digit_facts hd).1, (digit_facts hd).2.1, (digit_facts hd).2.2.1⟩
    all_goals subst hc
    all_goals refine ⟨by decide, by decide, by decide⟩
  cases v with
  | nil => simp [signSplit, unsignedCommaBody, splitOnChar, allDigits] at h
  | cons a r =>
    by_cases hp : a = '+'
    · subst hp
      rw [signSplit, if_pos rfl] at h
      refine ⟨?_, ?_, by simp⟩
      · intro c hc
        rcases List.mem_cons.mp hc with h1 | h1
        · exact hsign (.inr (.inr (.inl h1)))
        · rcases unsigned_chars h c h1 with h2 | h2
          · exact hsign (.inl h2)
          · exact hsign (.inr (.inl h2))
      · obtain ⟨c, hc, hd⟩ := unsigned_last h
        have hrne : r ≠ [] := by
          rintro rfl
          simp [unsignedCommaBody, splitOnChar, allDigits] at h
        obtain ⟨rh, rt, hrt⟩ := List.exists_cons_of_ne_nil hrne
        refine ⟨c, ?_, hd⟩
        rw [hrt, List.getLast?_cons_cons, ← hrt]
        exact hc
    · by_cases hm : a = '-'
      · subst hm
        rw [signSplit, if_neg (by decide), if_pos rfl] at h
        refine ⟨?_, ?_, by simp⟩
        · intro c hc
          rcases List.mem_cons.mp hc with h1 | h1
          · exact hsign (.inr (.inr (.inr h1)))
          · rcases unsigned_chars h c h1 with h2 | h2
            · exact hsign (.inl h2)
            · exact hsign (.inr (.inl h2))
        · obtain ⟨c, hc, hd⟩ := unsigned_last h
          have hrne : r ≠ [] := by
            rintro rfl
            simp [unsignedCommaBody, splitOnChar, allDigits] at h
          obtain ⟨rh, rt, hrt⟩ := List.exists_cons_of_ne_nil hrne
          refine ⟨c, ?_, hd⟩
          rw [hrt, List.getLast?_cons_cons, ← hrt]
          exact hc
      · rw [signSplit, if_neg hp, if_neg hm] at h
        refine ⟨?_, unsigned_last h, by simp⟩
        intro c hc
        rcases unsigned_chars h c hc with h2 | h2
        · exact hsign (.inl h2)
        · exact hsign (.inr (.inl h2))

lemma replace_body_chars {u : List Char} (h : unsignedCommaBody u = true) :
    ∀ c ∈ replaceChar ',' '.' u, isAsciiDigit c = true ∨ c = '.' := by
  intro c hc
  unfold replaceChar at hc
  obtain ⟨x, hx, hfx⟩ := List.mem_map.mp hc
  rcases unsigned_chars h x hx with hd | hcm
  · left
    rw [← hfx, if_neg (digit_facts hd).2.2.2.1]
    exact hd
  · right
    rw [← hfx, if_pos hcm]

lemma splitFirst_replace_none {u : List Char} (h : unsignedCommaBody u = true) :
    splitFirst isExpChar (replaceChar ',' '.' u) = none := by
  apply splitFirst_eq_none
  intro c hc
  rcases replace_body_chars h c hc with hd | hd
  · exact (digit_facts hd).2.2.2.2.2.1
  · subst hd
    decide

lemma replace_body_not_space {u : List Char} (h : unsignedCommaBody u = true) :
    ∀ c ∈ replaceChar ',' '.' u, isPySpace c = false := by
  intro c hc
  rcases replace_body_chars h c hc with hd | hd
  · exact (digit_facts hd).1
  · subst hd
    decide

lemma mantissa_of_body {u : List Char} (h : unsignedCommaBody u = true) :
    mantissaVal (replaceChar ',' '.' u) = some (unsignedCommaVal u) := by
  rcases unsigned_body_cases h with hall | ⟨a, b, hu, ha, hb⟩
  · have hnc : ∀ c ∈ u, c ≠ ',' :=
      fun c hc => (digit_facts (allDigits_mem hall c hc)).2.2.2.1
    have hnd : ∀ c ∈ u, c ≠ '.' :=
      fun c hc => (digit_facts (allDigits_mem hall c hc)).2.2.2.2.1
    rw [replaceChar_of_not_mem hnc]
    have hs : splitOnChar '.' u = [u] := splitOnChar_of_not_mem hnd
    have hs2 : splitOnChar ',' u = [u] := splitOnChar_of_not_mem hnc
    simp [mantissaVal, hs, hall, unsignedCommaVal, hs2]
  · subst hu
    have hna := allDigits_mem ha
    have hnb := allDigits_mem hb
    have hA : ∀ c ∈ a, c ≠ ',' := fun c hc => (digit_facts (hna c hc)).2.2.2.1
    have hB : ∀ c ∈ b, c ≠ ',' := fun c hc => (digit_facts (hnb c hc)).2.2.2.1
    have hrep : replaceChar ',' '.' (a ++ ',' :: b) = a ++ '.' :: b := by
      have h1 : replaceChar ',' '.' (a ++ ',' :: b) =
          replaceChar ',' '.' a ++ replaceChar ',' '.' (',' :: b) := by
        simp [replaceChar]
      have h2 : replaceChar ',' '.' (',' :: b) = '.' :: replaceChar ',' '.' b := by
        simp [replaceChar]
      rw [h1, h2, replaceChar_of_not_mem hA, replaceChar_of_not_mem hB]
    rw [hrep]
    have hsd : splitOnChar '.' (a ++ '.' :: b) = [a, b] := by
      rw [splitOnChar_append '.' a b
        (fun c hc => (digit_facts (hna c hc)).2.2.2.2.1)]
      rw [splitOnChar_of_not_mem
        (fun c hc => (digit_facts (hnb c hc)).2.2.2.2.1)]
    have hsc : splitOnChar ',' (a ++ ',' :: b) = [a, b] := by
      rw [splitOnChar_append ',' a b hA, splitOnChar_of_not_mem hB]
    have hae : a.isEmpty = false := by
      simpa [List.isEmpty_eq_false] using allDigits_ne_nil ha
    have hbe : b.isEmpty = false := by
      simpa [List.isEmpty_eq_false] using allDigits_ne_nil hb
    simp [mantissaVal, hsd, ha, hb, hae, hbe, unsignedCommaVal, hsc]

/-- Parsing agrees with the claim's reading of a comma-decimal numeral. -/
lemma parse_commaNumeral {v : List Char} (h : isCommaNumeral v = true) :
    parse_european_float v = some (commaNumeralVal v) := by
  unfold isCommaNumeral at h
  cases v with
  | nil =>
    simp only [signSplit] at h
    simp [unsignedCommaBody, splitOnChar, allDigits] at h
  | cons a r =>
    by_cases hp : a = '+'
    · subst hp
      have hu : unsignedCommaBody r = true := h
      have hrep : replaceChar ',' '.' ('+' :: r) =
          '+' :: replaceChar ',' '.' r := by
        simp [replaceChar]
      have htrim : trim ('+' :: replaceChar ',' '.' r) =
          '+' :: replaceChar ',' '.' r := by
        apply trim_eq_self_of_chars
        intro c hc
        rcases List.mem_cons.mp hc with h1 | h1
        · subst h1
          decide
        · exact replace_body_not_space hu c h1
      have hss : signSplit ('+' :: replaceChar ',' '.' r) =
          (false, replaceChar ',' '.' r) := by
        simp [signSplit]
      have hcv : commaNumeralVal ('+' :: r) = unsignedCommaVal r := by
        simp [commaNumeralVal, signSplit]
      rw [parse_european_float, hrep, hcv]
      simp only [pyFloat, htrim, hss, splitFirst_replace_none hu,
        mantissa_of_body hu, Option.map_some]
      simp
    · by_cases hm : a = '-'
      · subst hm
        have hu : unsignedCommaBody r = true := h
        have hrep : replaceChar ',' '.' ('-' :: r) =
            '-' :: replaceChar ',' '.' r := by
          simp [replaceChar]
        have htrim : trim ('-' :: replaceChar ',' '.' r) =
            '-' :: replaceChar ',' '.' r := by
          apply trim_eq_self_of_chars
          intro c hc
          rcases List.mem_cons.mp hc with h1 | h1
          · subst h1
            decide
          · exact replace_body_not_space hu c h1
        have hss : signSplit ('-' :: replaceChar ',' '.' r) =
            (true, replaceChar ',' '.' r) := by
          simp [signSplit]
        have hcv : commaNumeralVal ('-' :: r) = -unsignedCommaVal r := by
          simp [commaNumeralVal, signSplit]
        rw [parse_european_float, hrep, hcv]
        simp only [pyFloat, htrim, hss, splitFirst_replace_none hu,
          mantissa_of_body hu, Option.map_some]
        simp
      · have hu : unsignedCommaBody (a :: r) = true := by
          rw [signSplit, if_neg hp, if_neg hm] at h
          exact h
        obtain ⟨c0, r0, hcr, hdig⟩ := unsigned_head hu
        have hrna : replaceChar ',' '.' (a :: r) =
            a :: replaceChar ',' '.' r := by
          have ha' : a ≠ ',' := by
            have : a = c0 := by
              have := hcr
              injection this with h1 _
            rw [this]
            exact (digit_facts hdig).2.2.2.1
          simp [replaceChar, ha']
        have hadig : isAsciiDigit a = true := by
          have : a = c0 := by injection hcr with h1 _
          rw [this]
          exact hdig
        have hbody : replaceChar ',' '.' (a :: r) =
            replaceChar ',' '.' (a :: r) := rfl
        have htrim : trim (replaceChar ',' '.' (a :: r)) =
            replaceChar ',' '.' (a :: r) := by
          apply trim_eq_self_of_chars
          exact replace_body_not_space hu
        have hss : signSplit (replaceChar ',' '.' (a :: r)) =
            (false, replaceChar ',' '.' (a :: r)) := by
          rw [hrna, signSplit, if_neg hp, if_neg hm, ← hrna]
        have hcv : commaNumeralVal (a :: r) = unsignedCommaVal (a :: r) := by
          simp [commaNumeralVal, signSplit, hp, hm]
        rw [parse_european_float, hcv]
        simp only [pyFloat, htrim, hss, splitFirst_replace_none hu,
          mantissa_of_body hu, Option.map_some]
        simp

/-! ## C1: the per-row loop on an all-valid file -/

lemma processRows_all_ok (lines : List (List Char)) (n : Nat)
    (res : ValidationResult) (parsed : List Row) (vf : Nat → ℚ)
    (hrow : ∀ j (hj : j < lines.length), ∃ a b,
      splitOnChar '\t' (lines.get ⟨j, hj⟩) = [a, b] ∧
      pyInt (trim a) = some ((n + j : Nat) : Int) ∧
      parse_european_float (trim b) = some (vf j)) :
    processRows n lines res parsed =
      (res, parsed ++ (List.range lines.length).map
        (fun j : Nat => Row.mk ((n + j : Nat) : Int) (vf j))) := by
  induction lines generalizing n res parsed vf with
  | nil => simp [processRows]
  | cons l ls ih =>
    obtain ⟨a, b, hs, hidx, hval⟩ := hrow 0 (by simp)
    have hs' : splitOnChar '\t' l = [a, b] := hs
    have hidx' : pyInt (trim a) = some ((n : Nat) : Int) := by simpa using hidx
    have hrow0 : processRow n l res parsed =
        (res, parsed ++ [Row.mk ((n : Nat) : Int) (vf 0)]) := by
      simp only [processRow, hs', hidx', hval]
      simp
    have htail := ih (n + 1) res (parsed ++ [Row.mk ((n : Nat) : Int) (vf 0)])
      (fun j => vf (j + 1)) ?_
    · calc processRows n (l :: ls) res parsed
          = processRows (n + 1) ls res
            (parsed ++ [Row.mk ((n : Nat) : Int) (vf 0)]) := by
            simp only [processRows, hrow0]
        _ = (res, (parsed ++ [Row.mk ((n : Nat) : Int) (vf 0)]) ++
            (List.range ls.length).map
              (fun j : Nat => Row.mk ((n + 1 + j : Nat) : Int) (vf (j + 1)))) :=
            htail
        _ = (res, parsed ++ (List.range (ls.length + 1)).map
            (fun j : Nat => Row.mk ((n + j : Nat) : Int) (vf j))) := by
            rw [List.range_succ_eq_map, List.map_cons, List.map_map,
              List.append_assoc, List.singleton_append]
            refine congrArg _ (congrArg _ ?_)
            refine congrArg₂ _ ?_ ?_
            · refine congrArg₂ _ ?_ rfl
              simp
            · apply List.map_congr_left
              intro j _
              simp only [Function.comp]
              refine congrArg₂ _ ?_ rfl
              push_cast
              ring
    · intro j hj
      obtain ⟨a', b', hs2, hidx2, hval2⟩ := hrow (j + 1) (by simpa using hj)
      refine ⟨a', b', hs2, ?_, hval2⟩
      rw [hidx2]
      refine congrArg _ ?_
      push_cast
      ring

/-! ## C1: reconstructing the lines from the joined file -/

lemma joinWith_head? (c : Char) (l : List Char) (ls : List (List Char))
    (h : l ≠ []) : (joinWith c (l :: ls)).head? = l.head? := by
  cases ls with
  | nil => rfl
  | cons l2 ls2 =>
    show (l ++ c :: joinWith c (l2 :: ls2)).head? = l.head?
    rw [List.head?_append]
    obtain ⟨x, t, hx⟩ := List.exists_cons_of_ne_nil h
    rw [hx]
    rfl

lemma joinWith_getLast? (c : Char) :
    ∀ (ls : List (List Char)) (llast : List Char),
      ls.getLast? = some llast → llast ≠ [] →
      (joinWith c ls).getLast? = llast.getLast? := by
  intro ls
  induction ls with
  | nil =>
    intro llast h
    simp at h
  | cons l ls ih =>
    intro llast hl hne
    cases ls with
    | nil =>
      simp only [List.getLast?_singleton, Option.some_inj] at hl
      subst hl
      rfl
    | cons l2 ls2 =>
      have hl' : (l2 :: ls2).getLast? = some llast := by
        rwa [List.getLast?_cons_cons] at hl
      show (l ++ c :: joinWith c (l2 :: ls2)).getLast? = llast.getLast?
      rw [List.getLast?_append_of_ne_nil _ (by simp)]
      have hjoin_ne : joinWith c (l2 :: ls2) ≠ [] := by
        cases ls2 with
        | nil =>
          simp only [List.getLast?_singleton, Option.some_inj] at hl'
          subst hl'
          exact hne
        | cons l3 ls3 =>
          show l2 ++ c :: joinWith c (l3 :: ls3) ≠ []
          simp
      obtain ⟨z, zs, hz⟩ := List.exists_cons_of_ne_nil hjoin_ne
      rw [hz, List.getLast?_cons_cons, ← hz]
      exact ih llast hl' hne

lemma splitOnChar_joinWith (c : Char) :
    ∀ ls : List (List Char), ls ≠ [] →
      (∀ l ∈ ls, ∀ x ∈ l, x ≠ c) →
      splitOnChar c (joinWith c ls) = ls := by
  intro ls
  induction ls with
  | nil =>
    intro h
    exact absurd rfl h
  | cons l ls ih =>
    intro _ h
    cases ls with
    | nil => exact splitOnChar_of_not_mem (h l (.head _))
    | cons l2 ls2 =>
      show splitOnChar c (l ++ c :: joinWith c (l2 :: ls2)) = l :: l2 :: ls2
      rw [splitOnChar_append c _ _ (h l (.head _))]
      rw [ih (by simp) (fun x hx => h x (List.mem_cons_of_mem _ hx))]

lemma extractLines_joinWith (lines : List (List Char))
    (hne : lines ≠ [])
    (hnn : ∀ l ∈ lines, ∀ x ∈ l, x ≠ '\n')
    (hhead : ∀ l ∈ lines, ∀ a, l.head? = some a → isPySpace a = false)
    (hlastc : ∀ l ∈ lines, ∀ a, l.getLast? = some a → isPySpace a = false)
    (hnonempty : ∀ l ∈ lines, l ≠ []) :
    extractLines (joinWith '\n' lines) = lines := by
  obtain ⟨l0, ls0, h0⟩ := List.exists_cons_of_ne_nil hne
  subst h0
  have hl0ne := hnonempty l0 (.head _)
  obtain ⟨llast, hlast⟩ : ∃ ll, (l0 :: ls0).getLast? = some ll := by
    cases h : (l0 :: ls0).getLast? with
    | none => simp [List.getLast?_eq_none_iff] at h
    | some x => exact ⟨x, rfl⟩
  have hlastmem : llast ∈ l0 :: ls0 := by
    obtain ⟨ys, hys⟩ := List.getLast?_eq_some_iff.mp hlast
    rw [hys]
    simp
  have htrim : trim (joinWith '\n' (l0 :: ls0)) = joinWith '\n' (l0 :: ls0) := by
    apply trim_eq_self
    · intro a ha
      rw [joinWith_head? '\n' l0 ls0 hl0ne] at ha
      exact hhead l0 (.head _) a ha
    · intro a ha
      rw [joinWith_getLast? '\n' (l0 :: ls0) llast hlast
        (hnonempty llast hlastmem)] at ha
      exact hlastc llast hlastmem a ha
  unfold extractLines
  rw [htrim, splitOnChar_joinWith '\n' _ (by simp) hnn]
  have hmap : (l0 :: ls0).map trim = l0 :: ls0 := by
    rw [List.map_congr_left
      (fun l hl => trim_eq_self l (hhead l hl) (hlastc l hl))]
    exact List.map_id' _
  rw [hmap]
  apply List.filter_eq_self.mpr
  intro l hl
  simpa [List.isEmpty_eq_false] using hnonempty l hl

lemma natChars_facts : ∀ k, k < 12 →
    natChars k ≠ [] ∧ (∀ c ∈ natChars k, isAsciiDigit c = true) ∧
      pyInt (trim (natChars k)) = some ((k : Nat) : Int) := by decide

/-- C1: a file of exactly 12 tab-delimited rows whose first fields are the
sequential integers 0..11 and whose second fields are comma-decimal
numerals validates with `valid = true`, no errors or warnings, and `data`
holding the 12 rows in order, each value being the numeric value of the
row's second field with the comma read as a decimal dot. -/
theorem c1_valid_file_accepted (vals : List (List Char))
    (hlen : vals.length = 12)
    (hv : ∀ v ∈ vals, isCommaNumeral v = true) :
    validate_data_file (.str (fileOf vals)) =
      { valid := true, errors := [], warnings := [],
        data := some (List.zipWith
          (fun (i : Nat) (v : List Char) => Row.mk (i : Int) (commaNumeralVal v))
          (List.range 12) vals) } := by
  set lines := List.zipWith (fun i v => natChars i ++ '\t' :: v)
    (List.range 12) vals with hlines
  have hlinelen : lines.length = 12 := by
    simp [hlines, List.length_zipWith, hlen]
  have hget : ∀ j, j < 12 →
      lines.getD j [] = natChars j ++ '\t' :: vals.getD j [] := by
    intro j hj
    show (List.zipWith (fun i v => natChars i ++ '\t' :: v)
      (List.range 12) vals).getD j [] = natChars j ++ '\t' :: vals.getD j []
    rw [List.getD_eq_getElem _ _
        (by simp [List.length_zipWith, hlen]; omega),
      List.getD_eq_getElem _ _ (by omega : j < vals.length)]
    rw [List.getElem_zipWith, List.getElem_range]
  have hvmem : ∀ j, j < 12 → vals.getD j [] ∈ vals := by
    intro j hj
    rw [List.getD_eq_getElem _ _ (by omega : j < vals.length)]
    exact List.getElem_mem _
  have hmemline : ∀ l ∈ lines, ∃ j, j < 12 ∧
      l = natChars j ++ '\t' :: vals.getD j [] := by
    intro l hl
    obtain ⟨j, hj, hl2⟩ := List.mem_iff_getElem.mp hl
    have hj12 : j < 12 := by omega
    refine ⟨j, hj12, ?_⟩
    rw [← hl2, ← List.getD_eq_getElem lines [] hj]
    exact hget j hj12
  have hfacts : ∀ l ∈ lines,
      (∀ x ∈ l, x ≠ '\n') ∧
      (∀ a, l.head? = some a → isAsciiDigit a = true) ∧
      (∀ a, l.getLast? = some a → isAsciiDigit a = true) ∧ l ≠ [] := by
    intro l hl
    obtain ⟨j, hj12, rfl⟩ := hmemline l hl
    obtain ⟨hne, hdig, -⟩ := natChars_facts j hj12
    have hval := hv _ (hvmem j hj12)
    obtain ⟨hchars, ⟨clast, hclast, hcdig⟩, hvne⟩ := commaNumeral_structure hval
    refine ⟨?_, ?_, ?_, by simp⟩
    · intro x hx
      rcases List.mem_append.mp hx with h1 | h1
      · exact (digit_facts (hdig x h1)).2.1
      · rcases List.mem_cons.mp h1 with h2 | h2
        · subst h2
          decide
        · exact (hchars x h2).2.1
    · intro a ha
      obtain ⟨c0, t0, h0⟩ := List.exists_cons_of_ne_nil hne
      rw [h0, List.cons_append, List.head?_cons, Option.some_inj] at ha
      rw [← ha]
      exact hdig c0 (by rw [h0]; exact .head _)
    · intro a ha
      rw [List.getLast?_append_of_ne_nil _ (by simp)] at ha
      obtain ⟨vh, vt, hvt⟩ := List.exists_cons_of_ne_nil hvne
      rw [hvt, List.getLast?_cons_cons, ← hvt, hclast, Option.some_inj] at ha
      rw [← ha]
      exact hcdig
  have hrow : ∀ j (hj : j < lines.length), ∃ a b,
      splitOnChar '\t' (lines.get ⟨j, hj⟩) = [a, b] ∧
      pyInt (trim a) = some ((0 + j : Nat) : Int) ∧
      parse_european_float (trim b) = some
        (commaNumeralVal (vals.getD j [])) := by
    intro j hj
    have hj12 : j < 12 := by omega
    have hval := hv _ (hvmem j hj12)
    obtain ⟨hne, hdig, hpy⟩ := natChars_facts j hj12
    refine ⟨natChars j, vals.getD j [], ?_, by simpa using hpy, ?_⟩
    · have hgl : lines.get ⟨j, hj⟩ = natChars j ++ '\t' :: vals.getD j [] := by
        rw [List.get_eq_getElem, ← List.getD_eq_getElem lines [] hj]
        exact hget j hj12
      rw [hgl]
      rw [splitOnChar_append '\t' _ _
        (fun c hc => (digit_facts (hdig c hc)).2.2.1)]
      rw [splitOnChar_of_not_mem
        (fun c hc => ((commaNumeral_structure hval).1 c hc).2.2)]
    · rw [trim_eq_self_of_chars _
        (fun c hc => ((commaNumeral_structure hval).1 c hc).1)]
      exact parse_commaNumeral hval
  have hloop := processRows_all_ok lines 0 ValidationResult.init []
    (fun j => commaNumeralVal (vals.getD j [])) hrow
  have hcontent : extractLines (fileOf vals) = lines := by
    unfold fileOf
    rw [← hlines]
    apply extractLines_joinWith lines (by
      intro h
      rw [h] at hlinelen
      simp at hlinelen)
    · exact fun l hl => (hfacts l hl).1
    · exact fun l hl a ha => (digit_facts ((hfacts l hl).2.1 a ha)).1
    · exact fun l hl a ha => (digit_facts ((hfacts l hl).2.2.1 a ha)).1
    · exact fun l hl => (hfacts l hl).2.2.2
  have hstrip : stripBOM (fileOf vals) = fileOf vals := by
    unfold stripBOM
    rw [if_neg]
    intro hbom
    have hlne : lines ≠ [] := by
      intro h
      rw [h] at hlinelen
      simp at hlinelen
    obtain ⟨l0, ls0, h0⟩ := List.exists_cons_of_ne_nil hlne
    have hl0 : l0 ∈ lines := by
      rw [h0]
      exact .head _
    have hl0ne : l0 ≠ [] := (hfacts l0 hl0).2.2.2
    have hh : (fileOf vals).head? = l0.head? := by
      show (joinWith '\n' (List.zipWith (fun i v => natChars i ++ '\t' :: v)
        (List.range 12) vals)).head? = l0.head?
      rw [← hlines, h0]
      exact joinWith_head? '\n' l0 ls0 hl0ne
    rw [hh] at hbom
    have := (hfacts l0 hl0).2.1 _ hbom
    exact absurd this (by decide)
  have hXY : (List.range lines.length).map
      (fun j : Nat => Row.mk ((0 + j : Nat) : Int)
        (commaNumeralVal (vals.getD j []))) =
      List.zipWith
        (fun (i : Nat) (v : List Char) => Row.mk (i : Int) (commaNumeralVal v))
        (List.range 12) vals := by
    rw [hlinelen]
    apply List.ext_getElem
    · simp [List.length_zipWith, hlen]
    · intro m h1 h2
      simp only [List.getElem_map, List.getElem_range, List.getElem_zipWith]
      have hm12 : m < 12 := by simpa using h1
      refine congrArg₂ _ (by simp) ?_
      rw [List.getD_eq_getElem _ _ (by omega : m < vals.length)]
  show validateContent (fileOf vals) = _
  unfold validateContent
  rw [hstrip, hcontent]
  have h12 : ¬lines.length ≠ 12 := by omega
  simp only [validateLines, if_neg h12, hloop, List.nil_append]
  rw [hXY]
  rfl

/-- Witness for C1: the concrete file with values 0,5 1,5 ... 11,5
validates with the 12 parsed rows. -/
theorem c1_valid_file_accepted_witness :
    validate_data_file (.str (fileOf
      [cs "0,5", cs "1,5", cs "2,5", cs "3,5", cs "4,5", cs "5,5",
        cs "6,5", cs "7,5", cs "8,5", cs "9,5", cs "10,5", cs "11,5"])) =
      { valid := true, errors := [], warnings := [],
        data := some (List.zipWith
          (fun (i : Nat) (v : List Char) => Row.mk (i : Int) (commaNumeralVal v))
          (List.range 12)
          [cs "0,5", cs "1,5", cs "2,5", cs "3,5", cs "4,5", cs "5,5",
            cs "6,5", cs "7,5", cs "8,5", cs "9,5", cs "10,5", cs "11,5"]) } :=
  c1_valid_file_accepted _ (by decide) (by decide)

end Mode2
